import Mathlib

/-!
Shallow embedding of the reminder-scheduling core of `first_to_do_list.py`
(class `TodoApp`).  The in-memory model `self.lists` is a Python dict from
list title to `{"tasks": [...], "reminder": iso-string-or-empty}`; the
APScheduler `BackgroundScheduler` holds at most one pending date job per job
id.  Python dicts are embedded as insertion-ordered association lists,
wall-clock datetimes as integers, and the persisted reminder string by the
three-way split empty / parseable timestamp / non-empty unparseable, which
is exactly the structure that `datetime.fromisoformat` and Python
truthiness tests observe on it.
-/

namespace TodoApp

/-- The persisted `reminder` string of a list: the empty string, the
`isoformat` of a datetime (embedded as the instant it parses back to), or a
non-empty string that `datetime.fromisoformat` rejects. -/
inductive Rem where
  | none : Rem
  | time (t : Int) : Rem
  | bad (s : String) : Rem
deriving DecidableEq

/-- One value of the `self.lists` dict: `{"tasks": [...], "reminder": ...}`. -/
structure TaskData where
  tasks : List String
  reminder : Rem
deriving DecidableEq

/-- One pending APScheduler date job: its `run_date` and the `list_title`
captured by the `notify` closure passed to `scheduler.add_job`. -/
structure Job where
  fireAt : Int
  title : String
deriving DecidableEq

/-- Association-list lookup, embedding Python dict indexing / `.get`. -/
def alookup {α : Type} : List (String × α) → String → Option α
  | [], _ => Option.none
  | (k, v) :: rest, key => if k = key then some v else alookup rest key

/-- Association-list update `m[key] = v`: replace the value in place if the
key is present (dicts keep insertion order), append otherwise. -/
def setKey {α : Type} (key : String) (v : α) : List (String × α) → List (String × α)
  | [] => [(key, v)]
  | (k, w) :: rest => if k = key then (key, v) :: rest else (k, w) :: setKey key v rest

/-- Association-list removal `m.pop(key, None)`: drop the entry for `key`
if present, otherwise leave the list unchanged. -/
def popKey {α : Type} (key : String) : List (String × α) → List (String × α)
  | [] => []
  | (k, w) :: rest => if k = key then rest else (k, w) :: popKey key rest

/-- The keys of an association list, in order. -/
def keysOf {α : Type} (m : List (String × α)) : List String := m.map Prod.fst

/-- Well-formedness of a dict embedding: no duplicate keys. -/
def keysNodup {α : Type} (m : List (String × α)) : Prop := (keysOf m).Nodup

instance decKeysNodup {α : Type} (m : List (String × α)) : Decidable (keysNodup m) :=
  inferInstanceAs (Decidable ((keysOf m).Nodup))

/-- Number of entries stored under `key`. -/
def keyCount {α : Type} (m : List (String × α)) (key : String) : Nat :=
  (m.filter (fun p => p.1 == key)).length

/-- The `self.lists` dict: title to task data, in insertion order. -/
abbrev Store := List (String × TaskData)

/-- The scheduler's job table: job id to pending date job. -/
abbrev JobMap := List (String × Job)

/-- Combined state of the dict `self.lists` and the background scheduler. -/
structure AppState where
  lists : Store
  jobs : JobMap
deriving DecidableEq

/-- Embeds `list_title.replace(" ", "_")` (line 345).  The pattern is the
single character `" "`, so `replace` substitutes character by character. -/
def normalizeTitle (listTitle : String) : String :=
  String.mk (listTitle.data.map (fun c => if c = ' ' then '_' else c))

/-- Embeds `_job_id_for` (lines 343-345):
`"reminder__" + list_title.replace(" ", "_")`. -/
def jobIdFor (listTitle : String) : String :=
  "reminder__" ++ normalizeTitle listTitle

/-- Embeds the scheduler effect of `_add_notification_job` (lines 347-390).
Lines 350-355 remove an existing job under the id (`get_job` then
`remove_job`, failures swallowed), then line 382 registers the fresh date
job.  `addRaises` models `scheduler.add_job` raising (the
`ConflictingIdError` arm of lines 383-390): serially the id is free after
the removal, so the retry's `remove_job` raises `JobLookupError`, the
second `add_job` is never reached, the `except Exception: pass` swallows
everything, and no job is registered. -/
def addNotificationJob (addRaises : Bool) (jobs : JobMap) (listTitle : String)
    (runDt : Int) : JobMap :=
  let id := jobIdFor listTitle
  let jobs1 := popKey id jobs
  if addRaises then jobs1 else setKey id ⟨runDt, listTitle⟩ jobs1

/-- Outcome reported by `_schedule_reminder_for_current_list` through its
message boxes: early return with "No List", early return with "Invalid",
or the final "Scheduled" information box. -/
inductive ScheduleOutcome where
  | noListSelected : ScheduleOutcome
  | invalidPast : ScheduleOutcome
  | scheduled : ScheduleOutcome
deriving DecidableEq

/-- Embeds `_schedule_reminder_for_current_list` (lines 392-414): reject a
non-future `run_dt` (line 403, `run_dt <= dt.datetime.now()`), otherwise
store `run_dt.isoformat()` in the list's `reminder` field (line 408) and
then register the job (line 410).  The absent-title branch stands for the
"no list selected" early return, since the selected sidebar item is always
a key of `self.lists`. -/
def scheduleReminderForCurrentList (addRaises : Bool) (s : AppState) (title : String)
    (runDt now : Int) : ScheduleOutcome × AppState :=
  match alookup s.lists title with
  | Option.none => (ScheduleOutcome.noListSelected, s)
  | some d =>
    if runDt ≤ now then (ScheduleOutcome.invalidPast, s)
    else
      let lists := setKey title ⟨d.tasks, Rem.time runDt⟩ s.lists
      let jobs := addNotificationJob addRaises s.jobs title runDt
      (ScheduleOutcome.scheduled, ⟨lists, jobs⟩)

/-- Outcome reported by `_clear_reminder_for_current_list`. -/
inductive ClearOutcome where
  | noListSelected : ClearOutcome
  | noReminderSet : ClearOutcome
  | cleared : ClearOutcome
deriving DecidableEq

/-- Embeds `_clear_reminder_for_current_list` (lines 416-433): if the stored
reminder string is empty report "No Reminder"; otherwise remove the job for
the title's id (failure swallowed) and store the empty string. -/
def clearReminderForCurrentList (s : AppState) (title : String) :
    ClearOutcome × AppState :=
  match alookup s.lists title with
  | Option.none => (ClearOutcome.noListSelected, s)
  | some d =>
    if d.reminder = Rem.none then (ClearOutcome.noReminderSet, s)
    else
      (ClearOutcome.cleared,
        ⟨setKey title ⟨d.tasks, Rem.none⟩ s.lists, popKey (jobIdFor title) s.jobs⟩)

/-- Embeds `_delete_selected_list` (lines 280-301), after the user confirms:
the job is removed only under `if rem:` (line 291), i.e. only when the
stored reminder string is non-empty, and then the list is popped. -/
def deleteSelectedList (s : AppState) (title : String) : AppState :=
  match alookup s.lists title with
  | Option.none => s
  | some d =>
    let jobs := if d.reminder = Rem.none then s.jobs else popKey (jobIdFor title) s.jobs
    ⟨popKey title s.lists, jobs⟩

/-- Outcome reported by `_rename_current_list` through its early returns. -/
inductive RenameOutcome where
  | noListSelected : RenameOutcome
  | emptyTitle : RenameOutcome
  | sameTitle : RenameOutcome
  | titleTaken : RenameOutcome
  | renamed : RenameOutcome
deriving DecidableEq

/-- Embeds `_rename_current_list` (lines 303-338): validation in source
order (empty new title, unchanged title, existing title), then
`self.lists[new_title] = self.lists.pop(old_title)` (line 320), and, when
the moved list's reminder string is non-empty and a job exists under the
old id, `remove_job(job_id_old)` (line 329), `fromisoformat(rem)`
(line 330) and `_add_notification_job(new_title, run_dt)` (line 331).  If
the stored string does not parse, line 330 raises after the removal and the
`except` on line 332 swallows it, so no job is re-registered. -/
def renameCurrentList (addRaises : Bool) (s : AppState) (oldTitle newTitle : String) :
    RenameOutcome × AppState :=
  match alookup s.lists oldTitle with
  | Option.none => (RenameOutcome.noListSelected, s)
  | some d =>
    if newTitle = "" then (RenameOutcome.emptyTitle, s)
    else if newTitle = oldTitle then (RenameOutcome.sameTitle, s)
    else if (alookup s.lists newTitle).isSome then (RenameOutcome.titleTaken, s)
    else
      let lists := setKey newTitle d (popKey oldTitle s.lists)
      let jobs :=
        if d.reminder = Rem.none then s.jobs
        else
          match alookup s.jobs (jobIdFor oldTitle) with
          | Option.none => s.jobs
          | some _ =>
            let jobs1 := popKey (jobIdFor oldTitle) s.jobs
            match d.reminder with
            | Rem.time t => addNotificationJob addRaises jobs1 newTitle t
            | _ => jobs1
      (RenameOutcome.renamed, ⟨lists, jobs⟩)

/-- Embeds `_mark_list_done` (lines 450-466): prefix every task with
`"✔ "`, clear the reminder string, and remove the scheduled job if any
(failure swallowed). -/
def markListDone (s : AppState) (title : String) : AppState :=
  match alookup s.lists title with
  | Option.none => s
  | some d =>
    ⟨setKey title ⟨d.tasks.map (fun t => "✔ " ++ t), Rem.none⟩ s.lists,
      popKey (jobIdFor title) s.jobs⟩

/-- Notification handed to notify-py: `n.title` and `n.message`
(lines 358-364). -/
structure NotificationPayload where
  title : String
  message : String
deriving DecidableEq

/-- Embeds the `n.message` built on lines 361-364:
`f"You scheduled a reminder for '{list_title}'.\nTasks:\n"` plus
`"\n".join(f"- {t}" for t in tasks[:10])`. -/
def notifyMessage (listTitle : String) (tasks : List String) : String :=
  "You scheduled a reminder for '" ++ listTitle ++ "'.\nTasks:\n"
    ++ String.intercalate "\n" ((tasks.take 10).map (fun t => "- " ++ t))

/-- Result of one run of the `notify` closure: the state afterwards, the
payload handed to `n.send()`, and whether `_save_data` was invoked. -/
structure FireResult where
  state : AppState
  sent : NotificationPayload
  saved : Bool
deriving DecidableEq

/-- Embeds a date job firing: APScheduler runs the job once and drops it
from the job table, executing the `notify` closure of
`_add_notification_job` (lines 357-378).  The closure reads the live tasks
via `self.lists.get(list_title, {}).get("tasks", [])`, attempts
`n.send()` — `sendRaises` models the send raising, which the
`except Exception: pass` on lines 365-369 swallows, so nothing downstream
depends on it — and only under `if list_title in self.lists` (line 371)
clears the stored reminder string and calls `_save_data`. -/
def fireJob (sendRaises : Bool) (s : AppState) (id : String) : Option FireResult :=
  match alookup s.jobs id with
  | Option.none => Option.none
  | some job =>
    let jobs := popKey id s.jobs
    match alookup s.lists job.title with
    | some d =>
      some
        { state := ⟨setKey job.title ⟨d.tasks, Rem.none⟩ s.lists, jobs⟩,
          sent := ⟨"Reminder — " ++ job.title, notifyMessage job.title d.tasks⟩,
          saved := true }
    | Option.none =>
      some
        { state := ⟨s.lists, jobs⟩,
          sent := ⟨"Reminder — " ++ job.title, notifyMessage job.title []⟩,
          saved := false }

/-- Recursion of `_schedule_existing_reminders` over the dict items.  Each
iteration reads one original `(title, data)` entry — sound because dict
keys are unique and the loop body only ever rewrites the reminder of the
entry being visited — and either registers a job for a strictly future
timestamp or clears a past or unparseable reminder string. -/
def rearmGo (now : Int) : List (String × TaskData) → AppState → AppState
  | [], s => s
  | (title, d) :: rest, s =>
    match d.reminder with
    | Rem.none => rearmGo now rest s
    | Rem.time t =>
      if now < t then
        rearmGo now rest ⟨s.lists, addNotificationJob false s.jobs title t⟩
      else
        rearmGo now rest ⟨setKey title ⟨d.tasks, Rem.none⟩ s.lists, s.jobs⟩
    | Rem.bad _ => rearmGo now rest ⟨setKey title ⟨d.tasks, Rem.none⟩ s.lists, s.jobs⟩

/-- Embeds `_schedule_existing_reminders` (lines 435-448): the startup pass
over every saved list.  `run_dt > dt.datetime.now()` (line 442) registers
the job via `_add_notification_job`; otherwise, and when `fromisoformat`
raises on line 441, the stored reminder string is cleared to empty. -/
def scheduleExistingReminders (now : Int) (s : AppState) : AppState :=
  rearmGo now s.lists s

/-- What the startup pass leaves stored for one list: a strictly future
timestamp is kept, anything else is cleared to the empty string. -/
def rearmData (now : Int) (d : TaskData) : TaskData :=
  match d.reminder with
  | Rem.time t => if now < t then d else ⟨d.tasks, Rem.none⟩
  | Rem.none => d
  | Rem.bad _ => ⟨d.tasks, Rem.none⟩

/-- One user-visible or scheduler-driven operation of the reminder
subsystem, with the wall-clock instants it observes as data. -/
inductive Op where
  | schedule (title : String) (runDt now : Int) : Op
  | cancel (title : String) : Op
  | rename (oldTitle newTitle : String) : Op
  | delete (title : String) : Op
  | markDone (title : String) : Op
  | rearm (now : Int) : Op
  | fire (id : String) (sendRaises : Bool) : Op

/-- State transition of one operation, with every underlying scheduler
registration succeeding. -/
def applyOp (s : AppState) : Op → AppState
  | Op.schedule title runDt now => (scheduleReminderForCurrentList false s title runDt now).2
  | Op.cancel title => (clearReminderForCurrentList s title).2
  | Op.rename oldTitle newTitle => (renameCurrentList false s oldTitle newTitle).2
  | Op.delete title => deleteSelectedList s title
  | Op.markDone title => markListDone s title
  | Op.rearm now => scheduleExistingReminders now s
  | Op.fire id sendRaises =>
    match fireJob sendRaises s id with
    | some r => r.state
    | Option.none => s

/-- State after a whole sequence of operations. -/
def applyOps (s : AppState) : List Op → AppState
  | [] => s
  | op :: rest => applyOps (applyOp s op) rest

/-- Side conditions under which an operation keeps the store/scheduler pair
well formed: a rename target must not collide, after normalization, with
the job id of any other current title, and a rearm pass must only ever see
strictly future parseable reminders (it runs at startup, before any of the
registered instants has been reached). -/
def opOk (s : AppState) : Op → Bool
  | Op.rename oldTitle newTitle =>
    s.lists.all (fun p => p.1 == oldTitle || jobIdFor p.1 != jobIdFor newTitle)
  | Op.rearm now =>
    s.lists.all (fun p =>
      match p.2.reminder with
      | Rem.time t => decide (now < t)
      | _ => true)
  | _ => true

/-- Side conditions of a whole operation sequence, each checked in the
state the operation actually runs in. -/
def opsOk (s : AppState) : List Op → Bool
  | [] => true
  | op :: rest => opOk s op && opsOk (applyOp s op) rest

/-- Pairwise distinctness of the normalized job ids of the stored titles. -/
def idsNodup (ls : Store) : Prop := ((keysOf ls).map jobIdFor).Nodup

instance decIdsNodup (ls : Store) : Decidable (idsNodup ls) :=
  inferInstanceAs (Decidable (((keysOf ls).map jobIdFor).Nodup))

/-- Agreement of one stored list with the scheduler, as §3 of the
specification states it: an empty reminder string means no job under the
title's id, a stored timestamp means exactly that job with a matching fire
instant, and no unparseable reminder string is stored. -/
def agreesAt (s : AppState) (title : String) (d : TaskData) : Prop :=
  (d.reminder = Rem.none → alookup s.jobs (jobIdFor title) = Option.none) ∧
  (∀ t, d.reminder = Rem.time t → alookup s.jobs (jobIdFor title) = some ⟨t, title⟩) ∧
  (∀ str, d.reminder ≠ Rem.bad str)

/-- Every pending job points back at a stored list whose reminder string
holds exactly the job's fire instant, under exactly that title's id. -/
def jobsBacked (s : AppState) : Prop :=
  ∀ id job, alookup s.jobs id = some job →
    id = jobIdFor job.title ∧
    ∃ d, alookup s.lists job.title = some d ∧ d.reminder = Rem.time job.fireAt

/-- The reminder/job consistency invariant of §3 of the specification,
together with the well-formedness that makes it stable: distinct normalized
ids in the store, a duplicate-free job table, per-list agreement, and every
job backed by its list. -/
def Inv (s : AppState) : Prop :=
  idsNodup s.lists ∧ keysNodup s.jobs ∧
  (∀ title d, alookup s.lists title = some d → agreesAt s title d) ∧
  jobsBacked s

/-- At most one pending job per job id. -/
def atMostOneJobPerId (s : AppState) : Prop := ∀ id, keyCount s.jobs id ≤ 1

theorem alookup_setKey_self {α : Type} (m : List (String × α)) (k : String) (v : α) :
    alookup (setKey k v m) k = some v := by
  induction m with
  | nil => simp [setKey, alookup]
  | cons p rest ih =>
    obtain ⟨k1, v1⟩ := p
    by_cases h : k1 = k
    · simp [setKey, h, alookup]
    · simp [setKey, h, alookup, ih]

theorem alookup_setKey_ne {α : Type} (m : List (String × α)) {k q : String} (v : α)
    (h : q ≠ k) : alookup (setKey k v m) q = alookup m q := by
  have h' : ¬(k = q) := fun hh => h hh.symm
  induction m with
  | nil => simp [setKey, alookup, h']
  | cons p rest ih =>
    obtain ⟨k1, v1⟩ := p
    by_cases h1 : k1 = k
    · subst h1
      simp [setKey, alookup, h']
    · simp [setKey, h1, alookup, ih]

theorem alookup_popKey_ne {α : Type} (m : List (String × α)) {k q : String}
    (h : q ≠ k) : alookup (popKey k m) q = alookup m q := by
  have h' : ¬(k = q) := fun hh => h hh.symm
  induction m with
  | nil => simp [popKey]
  | cons p rest ih =>
    obtain ⟨k1, v1⟩ := p
    by_cases h1 : k1 = k
    · simp [popKey, h1, alookup, h']
    · simp [popKey, h1, alookup, ih]

theorem alookup_eq_none_iff {α : Type} (m : List (String × α)) (q : String) :
    alookup m q = Option.none ↔ q ∉ keysOf m := by
  induction m with
  | nil => simp [alookup, keysOf]
  | cons p rest ih =>
    obtain ⟨k1, v1⟩ := p
    by_cases h1 : k1 = q
    · simp [alookup, h1, keysOf]
    · have h1' : ¬(q = k1) := fun hh => h1 hh.symm
      simp [alookup, h1, keysOf, h1', ih]

theorem alookup_mem_keys {α : Type} {m : List (String × α)} {q : String} {v : α}
    (h : alookup m q = some v) : q ∈ keysOf m := by
  by_contra hq
  rw [← alookup_eq_none_iff] at hq
  rw [h] at hq
  exact Option.noConfusion hq

theorem alookup_mem {α : Type} {m : List (String × α)} {q : String} {v : α}
    (h : alookup m q = some v) : (q, v) ∈ m := by
  induction m with
  | nil => simp [alookup] at h
  | cons p rest ih =>
    obtain ⟨k1, v1⟩ := p
    by_cases h1 : k1 = q
    · subst h1
      simp [alookup] at h
      simp [h]
    · simp [alookup, h1] at h
      simp [ih h]

theorem popKey_sublist {α : Type} (m : List (String × α)) (k : String) :
    (popKey k m).Sublist m := by
  induction m with
  | nil => simp [popKey]
  | cons p rest ih =>
    obtain ⟨k1, v1⟩ := p
    by_cases h1 : k1 = k
    · simpa [popKey, h1] using List.sublist_cons_self (k, v1) rest
    · simpa [popKey, h1] using ih.cons₂ (k1, v1)

theorem mem_popKey {α : Type} {m : List (String × α)} {k : String} {p : String × α}
    (h : p ∈ popKey k m) : p ∈ m :=
  (popKey_sublist m k).mem h

theorem keysNodup_popKey {α : Type} {m : List (String × α)} (k : String)
    (h : keysNodup m) : keysNodup (popKey k m) :=
  List.Nodup.sublist ((popKey_sublist m k).map Prod.fst) h

theorem alookup_popKey_self {α : Type} {m : List (String × α)} (k : String)
    (h : keysNodup m) : alookup (popKey k m) k = Option.none := by
  induction m with
  | nil => simp [popKey, alookup]
  | cons p rest ih =>
    obtain ⟨k1, v1⟩ := p
    rw [keysNodup, keysOf] at h
    simp only [List.map_cons, List.nodup_cons] at h
    by_cases h1 : k1 = k
    · rw [← h1]
      simp only [popKey, if_pos rfl]
      rw [alookup_eq_none_iff]
      exact h.1
    · simp [popKey, h1, alookup, ih h.2]

theorem mem_keys_popKey {α : Type} {m : List (String × α)} {k q : String}
    (hnd : keysNodup m) (h : q ∈ keysOf (popKey k m)) : q ∈ keysOf m ∧ q ≠ k := by
  refine ⟨((popKey_sublist m k).map Prod.fst).mem h, ?_⟩
  intro hq
  rw [hq] at h
  have h0 : alookup (popKey k m) k = Option.none := alookup_popKey_self k hnd
  rw [alookup_eq_none_iff] at h0
  exact h0 h

theorem mem_setKey {α : Type} {m : List (String × α)} {k : String} {v : α}
    {p : String × α} (h : p ∈ setKey k v m) : p = (k, v) ∨ p ∈ m := by
  induction m with
  | nil => simpa [setKey] using h
  | cons q rest ih =>
    obtain ⟨k1, v1⟩ := q
    by_cases h1 : k1 = k
    · simp [setKey, h1] at h
      rcases h with h | h
      · exact Or.inl h
      · exact Or.inr (List.mem_cons_of_mem _ h)
    · simp [setKey, h1] at h
      rcases h with h | h
      · exact Or.inr (by simp [h])
      · rcases ih h with h2 | h2
        · exact Or.inl h2
        · exact Or.inr (List.mem_cons_of_mem _ h2)

theorem mem_keys_setKey {α : Type} (m : List (String × α)) (k : String) (v : α)
    (q : String) : q ∈ keysOf (setKey k v m) ↔ q = k ∨ q ∈ keysOf m := by
  induction m with
  | nil => simp [setKey, keysOf]
  | cons p rest ih =>
    obtain ⟨k1, v1⟩ := p
    by_cases h1 : k1 = k
    · subst h1
      simp [setKey, keysOf]
    · simp [setKey, h1, keysOf] at ih ⊢
      tauto

theorem keysOf_cons {α : Type} (a : String) (b : α) (l : List (String × α)) :
    keysOf ((a, b) :: l) = a :: keysOf l := rfl

theorem keys_setKey_of_mem {α : Type} {k : String} (v : α) :
    ∀ m : List (String × α), k ∈ keysOf m → keysOf (setKey k v m) = keysOf m := by
  intro m
  induction m with
  | nil =>
    intro h
    simp [keysOf] at h
  | cons p rest ih =>
    obtain ⟨k1, v1⟩ := p
    intro h
    by_cases h1 : k1 = k
    · simp [setKey, h1, keysOf]
    · have hk : k ∈ keysOf rest := by
        simp only [keysOf, List.map_cons, List.mem_cons] at h
        rcases h with h2 | h2
        · exact absurd h2.symm h1
        · exact h2
      simp only [setKey, if_neg h1, keysOf_cons]
      rw [ih hk]

theorem keys_setKey_of_not_mem {α : Type} {k : String} (v : α) :
    ∀ m : List (String × α), k ∉ keysOf m → keysOf (setKey k v m) = keysOf m ++ [k] := by
  intro m
  induction m with
  | nil =>
    intro _
    simp [setKey, keysOf]
  | cons p rest ih =>
    obtain ⟨k1, v1⟩ := p
    intro h
    simp only [keysOf, List.map_cons, List.mem_cons] at h
    push_neg at h
    have h1 : k1 ≠ k := fun hh => h.1 hh.symm
    simp only [setKey, if_neg h1, keysOf_cons, List.cons_append]
    rw [ih h.2]

theorem keysNodup_setKey {α : Type} {m : List (String × α)} (k : String) (v : α)
    (h : keysNodup m) : keysNodup (setKey k v m) := by
  by_cases hk : k ∈ keysOf m
  · rw [keysNodup, keys_setKey_of_mem v m hk]
    exact h
  · rw [keysNodup, keys_setKey_of_not_mem v m hk, List.nodup_append]
    refine ⟨h, List.nodup_singleton k, ?_⟩
    intro a ha hak
    rw [List.mem_singleton] at hak
    rw [hak] at ha
    exact hk ha

theorem mem_alookup {α : Type} {q : String} {v : α} :
    ∀ m : List (String × α), keysNodup m → (q, v) ∈ m → alookup m q = some v := by
  intro m
  induction m with
  | nil =>
    intro _ h
    simp at h
  | cons p rest ih =>
    obtain ⟨k1, v1⟩ := p
    intro hnd h
    rw [keysNodup, keysOf] at hnd
    simp only [List.map_cons, List.nodup_cons] at hnd
    rcases List.mem_cons.mp h with h2 | h2
    · injection h2 with hq hv
      simp [alookup, hq.symm, hv]
    · have hne : ¬(k1 = q) := by
        intro hh
        rw [hh] at hnd
        exact hnd.1 (List.mem_map_of_mem Prod.fst h2)
      simp [alookup, hne, ih hnd.2 h2]

theorem keyCount_eq_zero_of_not_mem {α : Type} {q : String} :
    ∀ m : List (String × α), q ∉ keysOf m → keyCount m q = 0 := by
  intro m
  induction m with
  | nil =>
    intro _
    simp [keyCount]
  | cons p rest ih =>
    obtain ⟨k1, v1⟩ := p
    intro h
    simp only [keysOf, List.map_cons, List.mem_cons] at h
    push_neg at h
    have h1 : ¬((k1 == q) = true) := by
      simp only [beq_iff_eq]
      exact fun hh => h.1 hh.symm
    simp only [keyCount, List.filter_cons]
    rw [if_neg h1]
    exact ih h.2

theorem keyCount_le_one {α : Type} (q : String) :
    ∀ m : List (String × α), keysNodup m → keyCount m q ≤ 1 := by
  intro m
  induction m with
  | nil =>
    intro _
    simp [keyCount]
  | cons p rest ih =>
    obtain ⟨k1, v1⟩ := p
    intro hnd
    rw [keysNodup, keysOf] at hnd
    simp only [List.map_cons, List.nodup_cons] at hnd
    by_cases h1 : k1 = q
    · have h0 : keyCount rest q = 0 := by
        refine keyCount_eq_zero_of_not_mem rest ?_
        rw [← h1]
        exact hnd.1
      have hfc : keyCount ((k1, v1) :: rest) q = keyCount rest q + 1 := by
        simp only [keyCount, List.filter_cons]
        rw [if_pos (by simp only [beq_iff_eq]; exact h1)]
        simp
      rw [hfc, h0]
    · simp only [keyCount, List.filter_cons]
      rw [if_neg (by simp only [beq_iff_eq]; exact h1)]
      exact ih hnd.2

theorem keyCount_eq_one {α : Type} {q : String} {v : α} :
    ∀ m : List (String × α), keysNodup m → alookup m q = some v → keyCount m q = 1 := by
  intro m
  induction m with
  | nil =>
    intro _ h
    simp [alookup] at h
  | cons p rest ih =>
    obtain ⟨k1, v1⟩ := p
    intro hnd h
    rw [keysNodup, keysOf] at hnd
    simp only [List.map_cons, List.nodup_cons] at hnd
    by_cases h1 : k1 = q
    · have h0 : keyCount rest q = 0 := by
        refine keyCount_eq_zero_of_not_mem rest ?_
        rw [← h1]
        exact hnd.1
      have hfc : keyCount ((k1, v1) :: rest) q = keyCount rest q + 1 := by
        simp only [keyCount, List.filter_cons]
        rw [if_pos (by simp only [beq_iff_eq]; exact h1)]
        simp
      rw [hfc, h0]
    · simp only [alookup, if_neg h1] at h
      simp only [keyCount, List.filter_cons]
      rw [if_neg (by simp only [beq_iff_eq]; exact h1)]
      exact ih hnd.2 h

theorem jobIdFor_ne_of_ne {ls : Store} (hids : idsNodup ls) {a b : String}
    (ha : a ∈ keysOf ls) (hb : b ∈ keysOf ls) (hne : a ≠ b) :
    jobIdFor a ≠ jobIdFor b :=
  fun h => hne (List.inj_on_of_nodup_map hids ha hb h)

theorem keysNodup_of_idsNodup {ls : Store} (hids : idsNodup ls) : keysNodup ls :=
  List.Nodup.of_map jobIdFor hids

theorem popKey_of_lookup_none {α : Type} :
    ∀ m : List (String × α), ∀ k : String, alookup m k = Option.none → popKey k m = m := by
  intro m
  induction m with
  | nil =>
    intro k _
    rfl
  | cons p rest ih =>
    obtain ⟨k1, v1⟩ := p
    intro k h
    by_cases h1 : k1 = k
    · rw [alookup, if_pos h1] at h
      exact Option.noConfusion h
    · rw [alookup, if_neg h1] at h
      rw [popKey, if_neg h1, ih k h]

theorem agreesAt_congr {s s' : AppState} {title : String} {d : TaskData}
    (hjobs : alookup s'.jobs (jobIdFor title) = alookup s.jobs (jobIdFor title))
    (h : agreesAt s title d) : agreesAt s' title d := by
  obtain ⟨h1, h2, h3⟩ := h
  refine ⟨?_, ?_, h3⟩
  · intro hr
    rw [hjobs]
    exact h1 hr
  · intro t hr
    rw [hjobs]
    exact h2 t hr

theorem mem_keysOf_of_mem {α : Type} {m : List (String × α)} {p : String × α}
    (h : p ∈ m) : p.1 ∈ keysOf m :=
  List.mem_map_of_mem Prod.fst h

theorem rearmGo_lists_untouched (now : Int) :
    ∀ (todo : List (String × TaskData)) (s : AppState) (title : String),
      (∀ p ∈ todo, p.1 ≠ title) →
      alookup (rearmGo now todo s).lists title = alookup s.lists title := by
  intro todo
  induction todo with
  | nil =>
    intro s title _
    rfl
  | cons p rest ih =>
    obtain ⟨t0, d0⟩ := p
    intro s title h
    have ht0 : title ≠ t0 := fun hh => h (t0, d0) (List.mem_cons_self _ _) hh.symm
    have hrest : ∀ p ∈ rest, p.1 ≠ title := fun p hp => h p (List.mem_cons_of_mem _ hp)
    cases hd : d0.reminder with
    | none =>
      simp only [rearmGo, hd]
      exact ih _ _ hrest
    | time t =>
      simp only [rearmGo, hd]
      by_cases hf : now < t
      · rw [if_pos hf]
        exact ih _ _ hrest
      · rw [if_neg hf, ih _ _ hrest]
        exact alookup_setKey_ne _ _ ht0
    | bad str =>
      simp only [rearmGo, hd]
      rw [ih _ _ hrest]
      exact alookup_setKey_ne _ _ ht0

theorem rearmGo_jobs_untouched (now : Int) :
    ∀ (todo : List (String × TaskData)) (s : AppState) (id : String),
      (∀ p ∈ todo, jobIdFor p.1 ≠ id) →
      alookup (rearmGo now todo s).jobs id = alookup s.jobs id := by
  intro todo
  induction todo with
  | nil =>
    intro s id _
    rfl
  | cons p rest ih =>
    obtain ⟨t0, d0⟩ := p
    intro s id h
    have ht0 : id ≠ jobIdFor t0 := fun hh => h (t0, d0) (List.mem_cons_self _ _) hh.symm
    have hrest : ∀ p ∈ rest, jobIdFor p.1 ≠ id := fun p hp => h p (List.mem_cons_of_mem _ hp)
    cases hd : d0.reminder with
    | none =>
      simp only [rearmGo, hd]
      exact ih _ _ hrest
    | time t =>
      simp only [rearmGo, hd]
      by_cases hf : now < t
      · rw [if_pos hf, ih _ _ hrest]
        show alookup (addNotificationJob false s.jobs t0 t) id = _
        rw [addNotificationJob]
        simp only [Bool.false_eq_true, if_false]
        rw [alookup_setKey_ne _ _ ht0, alookup_popKey_ne _ ht0]
      · rw [if_neg hf]
        exact ih _ _ hrest
    | bad str =>
      simp only [rearmGo, hd]
      exact ih _ _ hrest

theorem rearmGo_keysNodup_jobs (now : Int) :
    ∀ (todo : List (String × TaskData)) (s : AppState),
      keysNodup s.jobs → keysNodup (rearmGo now todo s).jobs := by
  intro todo
  induction todo with
  | nil =>
    intro s h
    exact h
  | cons p rest ih =>
    obtain ⟨t0, d0⟩ := p
    intro s h
    cases hd : d0.reminder with
    | none =>
      simp only [rearmGo, hd]
      exact ih _ h
    | time t =>
      simp only [rearmGo, hd]
      by_cases hf : now < t
      · rw [if_pos hf]
        refine ih _ ?_
        show keysNodup (addNotificationJob false s.jobs t0 t)
        rw [addNotificationJob]
        simp only [Bool.false_eq_true, if_false]
        exact keysNodup_setKey _ _ (keysNodup_popKey _ h)
      · rw [if_neg hf]
        exact ih _ h
    | bad str =>
      simp only [rearmGo, hd]
      exact ih _ h

theorem rearm_tracks (now : Int) :
    ∀ (todo : List (String × TaskData)) (s : AppState),
      ((keysOf todo).map jobIdFor).Nodup →
      (∀ p ∈ todo, alookup s.lists p.1 = some p.2) →
      ∀ te ∈ todo,
        alookup (rearmGo now todo s).lists te.1 = some (rearmData now te.2) ∧
        alookup (rearmGo now todo s).jobs (jobIdFor te.1) =
          (match te.2.reminder with
           | Rem.time t => if now < t then some (⟨t, te.1⟩ : Job)
                           else alookup s.jobs (jobIdFor te.1)
           | _ => alookup s.jobs (jobIdFor te.1)) := by
  intro todo
  induction todo with
  | nil =>
    intro s _ _ te hte
    exact absurd hte (List.not_mem_nil te)
  | cons p rest ih =>
    obtain ⟨t0, d0⟩ := p
    intro s hids hlk te hte
    rw [show keysOf ((t0, d0) :: rest) = t0 :: keysOf rest from rfl,
      List.map_cons, List.nodup_cons] at hids
    obtain ⟨hnotin, hrestids⟩ := hids
    have hrest_idne : ∀ q ∈ rest, jobIdFor q.1 ≠ jobIdFor t0 := by
      intro q hq hqe
      apply hnotin
      rw [← hqe]
      exact List.mem_map_of_mem jobIdFor (mem_keysOf_of_mem hq)
    have hrest_ne : ∀ q ∈ rest, q.1 ≠ t0 := by
      intro q hq hqe
      exact hrest_idne q hq (by rw [hqe])
    have hl0 : alookup s.lists t0 = some d0 := hlk (t0, d0) (List.mem_cons_self _ _)
    have hlrest : ∀ q ∈ rest, alookup s.lists q.1 = some q.2 :=
      fun q hq => hlk q (List.mem_cons_of_mem _ hq)
    cases hd : d0.reminder with
    | none =>
      have hstep : rearmGo now ((t0, d0) :: rest) s = rearmGo now rest s := by
        simp only [rearmGo, hd]
      rw [hstep]
      rcases List.mem_cons.mp hte with hte0 | hterest
      · subst hte0
        constructor
        · rw [rearmGo_lists_untouched now rest s t0 hrest_ne, hl0]
          simp only [rearmData, hd]
        · rw [rearmGo_jobs_untouched now rest s (jobIdFor t0) hrest_idne]
          simp only [hd]
      · exact ih s hrestids hlrest te hterest
    | time t =>
      by_cases hf : now < t
      · have hstep : rearmGo now ((t0, d0) :: rest) s
            = rearmGo now rest ⟨s.lists, addNotificationJob false s.jobs t0 t⟩ := by
          simp only [rearmGo, hd, hf, if_true]
        rw [hstep]
        have hje : ∀ q : String × TaskData, q ∈ rest →
            alookup (addNotificationJob false s.jobs t0 t) (jobIdFor q.1)
              = alookup s.jobs (jobIdFor q.1) := by
          intro q hq
          rw [addNotificationJob]
          simp only [Bool.false_eq_true, if_false]
          rw [alookup_setKey_ne _ _ (hrest_idne q hq),
            alookup_popKey_ne _ (hrest_idne q hq)]
        rcases List.mem_cons.mp hte with hte0 | hterest
        · subst hte0
          constructor
          · rw [rearmGo_lists_untouched now rest _ t0 hrest_ne]
            show alookup s.lists t0 = _
            rw [hl0]
            simp only [rearmData, hd, hf, if_true]
          · rw [rearmGo_jobs_untouched now rest _ (jobIdFor t0) hrest_idne]
            show alookup (addNotificationJob false s.jobs t0 t) (jobIdFor t0) = _
            rw [addNotificationJob]
            simp only [Bool.false_eq_true, if_false]
            rw [alookup_setKey_self]
            simp only [hd, hf, if_true]
        · obtain ⟨hresL, hresJ⟩ := ih ⟨s.lists, addNotificationJob false s.jobs t0 t⟩
            hrestids (fun q hq => hlrest q hq) te hterest
          refine ⟨hresL, ?_⟩
          cases hd2 : te.2.reminder with
          | none =>
            simp only [hd2] at hresJ ⊢
            exact hresJ.trans (hje te hterest)
          | time t2 =>
            simp only [hd2] at hresJ ⊢
            by_cases hf2 : now < t2
            · rw [if_pos hf2] at hresJ ⊢
              exact hresJ
            · rw [if_neg hf2] at hresJ ⊢
              exact hresJ.trans (hje te hterest)
          | bad str2 =>
            simp only [hd2] at hresJ ⊢
            exact hresJ.trans (hje te hterest)
      · have hstep : rearmGo now ((t0, d0) :: rest) s
            = rearmGo now rest ⟨setKey t0 ⟨d0.tasks, Rem.none⟩ s.lists, s.jobs⟩ := by
          simp only [rearmGo, hd, hf, if_false]
        rw [hstep]
        have hlk1 : ∀ q ∈ rest,
            alookup (setKey t0 ⟨d0.tasks, Rem.none⟩ s.lists) q.1 = some q.2 := by
          intro q hq
          rw [alookup_setKey_ne _ _ (hrest_ne q hq)]
          exact hlrest q hq
        rcases List.mem_cons.mp hte with hte0 | hterest
        · subst hte0
          constructor
          · rw [rearmGo_lists_untouched now rest _ t0 hrest_ne]
            show alookup (setKey t0 ⟨d0.tasks, Rem.none⟩ s.lists) t0 = _
            rw [alookup_setKey_self]
            simp only [rearmData, hd, hf, if_false]
          · rw [rearmGo_jobs_untouched now rest _ (jobIdFor t0) hrest_idne]
            simp only [hd, hf, if_false]
        · exact ih ⟨setKey t0 ⟨d0.tasks, Rem.none⟩ s.lists, s.jobs⟩ hrestids hlk1 te hterest
    | bad str =>
      have hstep : rearmGo now ((t0, d0) :: rest) s
          = rearmGo now rest ⟨setKey t0 ⟨d0.tasks, Rem.none⟩ s.lists, s.jobs⟩ := by
        simp only [rearmGo, hd]
      rw [hstep]
      have hlk1 : ∀ q ∈ rest,
          alookup (setKey t0 ⟨d0.tasks, Rem.none⟩ s.lists) q.1 = some q.2 := by
        intro q hq
        rw [alookup_setKey_ne _ _ (hrest_ne q hq)]
        exact hlrest q hq
      rcases List.mem_cons.mp hte with hte0 | hterest
      · subst hte0
        constructor
        · rw [rearmGo_lists_untouched now rest _ t0 hrest_ne]
          show alookup (setKey t0 ⟨d0.tasks, Rem.none⟩ s.lists) t0 = _
          rw [alookup_setKey_self]
          simp only [rearmData, hd]
        · rw [rearmGo_jobs_untouched now rest _ (jobIdFor t0) hrest_idne]
          simp only [hd]
      · exact ih ⟨setKey t0 ⟨d0.tasks, Rem.none⟩ s.lists, s.jobs⟩ hrestids hlk1 te hterest

theorem agreesAt_of_none {s : AppState} {title : String} {d : TaskData}
    (hd : d.reminder = Rem.none)
    (hj : alookup s.jobs (jobIdFor title) = Option.none) : agreesAt s title d := by
  refine ⟨fun _ => hj, ?_, ?_⟩
  · intro t ht
    rw [hd] at ht
    exact absurd ht (fun h => Rem.noConfusion h)
  · intro str hstr
    rw [hd] at hstr
    exact Rem.noConfusion hstr

theorem agreesAt_of_time {s : AppState} {title : String} {d : TaskData} {f : Int}
    (hd : d.reminder = Rem.time f)
    (hj : alookup s.jobs (jobIdFor title) = some ⟨f, title⟩) : agreesAt s title d := by
  refine ⟨?_, ?_, ?_⟩
  · intro hr
    rw [hd] at hr
    exact Rem.noConfusion hr
  · intro t ht
    rw [hd] at ht
    injection ht with ht
    rw [← ht]
    exact hj
  · intro str hstr
    rw [hd] at hstr
    exact Rem.noConfusion hstr

theorem rearm_establishes (now : Int) :
    ∀ (todo : List (String × TaskData)) (s : AppState),
      idsNodup s.lists →
      keysNodup s.jobs →
      ((keysOf todo).map jobIdFor).Nodup →
      (∀ p ∈ todo, alookup s.lists p.1 = some p.2) →
      (∀ p ∈ todo, alookup s.jobs (jobIdFor p.1) = Option.none) →
      (∀ title d, alookup s.lists title = some d → title ∉ keysOf todo →
        agreesAt s title d) →
      jobsBacked s →
      Inv (rearmGo now todo s) := by
  intro todo
  induction todo with
  | nil =>
    intro s hids hndj _ _ _ hagree hback
    exact ⟨hids, hndj, fun title d h => hagree title d h (List.not_mem_nil title), hback⟩
  | cons p rest ih =>
    obtain ⟨t0, d0⟩ := p
    intro s hids hndj htodoids hlk hjn hagree hback
    rw [show keysOf ((t0, d0) :: rest) = t0 :: keysOf rest from rfl,
      List.map_cons, List.nodup_cons] at htodoids
    obtain ⟨hnotin, hrestids⟩ := htodoids
    have hrest_idne : ∀ q ∈ rest, jobIdFor q.1 ≠ jobIdFor t0 := by
      intro q hq hqe
      apply hnotin
      rw [← hqe]
      exact List.mem_map_of_mem jobIdFor (mem_keysOf_of_mem hq)
    have hrest_ne : ∀ q ∈ rest, q.1 ≠ t0 := by
      intro q hq hqe
      exact hrest_idne q hq (by rw [hqe])
    have hl0 : alookup s.lists t0 = some d0 := hlk (t0, d0) (List.mem_cons_self _ _)
    have hj0 : alookup s.jobs (jobIdFor t0) = Option.none :=
      hjn (t0, d0) (List.mem_cons_self _ _)
    have hlrest : ∀ q ∈ rest, alookup s.lists q.1 = some q.2 :=
      fun q hq => hlk q (List.mem_cons_of_mem _ hq)
    have hjrest : ∀ q ∈ rest, alookup s.jobs (jobIdFor q.1) = Option.none :=
      fun q hq => hjn q (List.mem_cons_of_mem _ hq)
    have ht0mem : t0 ∈ keysOf s.lists := alookup_mem_keys hl0
    have hnotcons : ∀ title : String, title ≠ t0 → title ∉ keysOf rest →
        title ∉ keysOf ((t0, d0) :: rest) := by
      intro title hne hnot hmem
      rcases List.mem_cons.mp hmem with h2 | h2
      · exact hne h2
      · exact hnot h2
    cases hd : d0.reminder with
    | none =>
      have hstep : rearmGo now ((t0, d0) :: rest) s = rearmGo now rest s := by
        simp only [rearmGo, hd]
      rw [hstep]
      refine ih s hids hndj hrestids hlrest hjrest ?_ hback
      intro title d h hnot
      by_cases heq : title = t0
      · have hsd : alookup s.lists title = some d := h
        rw [heq, hl0] at hsd
        injection hsd with hsd
        rw [← hsd, heq]
        exact agreesAt_of_none hd hj0
      · exact hagree title d h (hnotcons title heq hnot)
    | time t =>
      by_cases hf : now < t
      · have hstep : rearmGo now ((t0, d0) :: rest) s
            = rearmGo now rest ⟨s.lists, addNotificationJob false s.jobs t0 t⟩ := by
          simp only [rearmGo, hd, hf, if_true]
        rw [hstep]
        have haddj : addNotificationJob false s.jobs t0 t
            = setKey (jobIdFor t0) ⟨t, t0⟩ s.jobs := by
          rw [addNotificationJob]
          simp only [Bool.false_eq_true, if_false]
          rw [popKey_of_lookup_none s.jobs (jobIdFor t0) hj0]
        refine ih ⟨s.lists, addNotificationJob false s.jobs t0 t⟩ hids ?_ hrestids
          (fun q hq => hlrest q hq) ?_ ?_ ?_
        · show keysNodup (addNotificationJob false s.jobs t0 t)
          rw [haddj]
          exact keysNodup_setKey _ _ hndj
        · intro q hq
          show alookup (addNotificationJob false s.jobs t0 t) (jobIdFor q.1) = Option.none
          rw [haddj, alookup_setKey_ne _ _ (hrest_idne q hq)]
          exact hjrest q hq
        · intro title d h hnot
          by_cases heq : title = t0
          · have hsd : alookup s.lists title = some d := h
            rw [heq, hl0] at hsd
            injection hsd with hsd
            rw [← hsd, heq]
            refine agreesAt_of_time hd ?_
            show alookup (addNotificationJob false s.jobs t0 t) (jobIdFor t0) = _
            rw [haddj]
            exact alookup_setKey_self _ _ _
          · have h' : alookup s.lists title = some d := h
            refine agreesAt_congr ?_ (hagree title d h' (hnotcons title heq hnot))
            show alookup (addNotificationJob false s.jobs t0 t) (jobIdFor title)
              = alookup s.jobs (jobIdFor title)
            have hidne : jobIdFor title ≠ jobIdFor t0 :=
              jobIdFor_ne_of_ne hids (alookup_mem_keys h') ht0mem heq
            rw [haddj, alookup_setKey_ne _ _ hidne]
        · intro id job hj2
          have hj2' : alookup (setKey (jobIdFor t0) ⟨t, t0⟩ s.jobs) id = some job := by
            rw [← haddj]
            exact hj2
          by_cases hidq : id = jobIdFor t0
          · rw [hidq, alookup_setKey_self] at hj2'
            injection hj2' with hj2'
            rw [← hj2']
            exact ⟨by rw [hidq], d0, hl0, hd⟩
          · rw [alookup_setKey_ne _ _ hidq] at hj2'
            obtain ⟨hid, d', hd', hrem'⟩ := hback id job hj2'
            exact ⟨hid, d', hd', hrem'⟩
      · have hstep : rearmGo now ((t0, d0) :: rest) s
            = rearmGo now rest ⟨setKey t0 ⟨d0.tasks, Rem.none⟩ s.lists, s.jobs⟩ := by
          simp only [rearmGo, hd, hf, if_false]
        rw [hstep]
        refine ih ⟨setKey t0 ⟨d0.tasks, Rem.none⟩ s.lists, s.jobs⟩ ?_ hndj hrestids
          ?_ hjrest ?_ ?_
        · show idsNodup (setKey t0 ⟨d0.tasks, Rem.none⟩ s.lists)
          show ((keysOf (setKey t0 ⟨d0.tasks, Rem.none⟩ s.lists)).map jobIdFor).Nodup
          rw [keys_setKey_of_mem _ s.lists ht0mem]
          exact hids
        · intro q hq
          show alookup (setKey t0 ⟨d0.tasks, Rem.none⟩ s.lists) q.1 = some q.2
          rw [alookup_setKey_ne _ _ (hrest_ne q hq)]
          exact hlrest q hq
        · intro title d h hnot
          by_cases heq : title = t0
          · have hsd : alookup (setKey t0 ⟨d0.tasks, Rem.none⟩ s.lists) title = some d := h
            rw [heq, alookup_setKey_self] at hsd
            injection hsd with hsd
            rw [← hsd, heq]
            exact agreesAt_of_none rfl hj0
          · have h' : alookup s.lists title = some d := by
              have h2 : alookup (setKey t0 ⟨d0.tasks, Rem.none⟩ s.lists) title
                  = some d := h
              rw [alookup_setKey_ne _ _ heq] at h2
              exact h2
            exact agreesAt_congr rfl (hagree title d h' (hnotcons title heq hnot))
        · intro id job hj2
          have hj2' : alookup s.jobs id = some job := hj2
          obtain ⟨hid, d', hd', hrem'⟩ := hback id job hj2'
          by_cases hjt : job.title = t0
          · exfalso
            rw [hid, hjt, hj0] at hj2'
            exact Option.noConfusion hj2'
          · refine ⟨hid, d', ?_, hrem'⟩
            show alookup (setKey t0 ⟨d0.tasks, Rem.none⟩ s.lists) job.title = some d'
            rw [alookup_setKey_ne _ _ hjt]
            exact hd'
    | bad str =>
      have hstep : rearmGo now ((t0, d0) :: rest) s
          = rearmGo now rest ⟨setKey t0 ⟨d0.tasks, Rem.none⟩ s.lists, s.jobs⟩ := by
        simp only [rearmGo, hd]
      rw [hstep]
      refine ih ⟨setKey t0 ⟨d0.tasks, Rem.none⟩ s.lists, s.jobs⟩ ?_ hndj hrestids
        ?_ hjrest ?_ ?_
      · show idsNodup (setKey t0 ⟨d0.tasks, Rem.none⟩ s.lists)
        show ((keysOf (setKey t0 ⟨d0.tasks, Rem.none⟩ s.lists)).map jobIdFor).Nodup
        rw [keys_setKey_of_mem _ s.lists ht0mem]
        exact hids
      · intro q hq
        show alookup (setKey t0 ⟨d0.tasks, Rem.none⟩ s.lists) q.1 = some q.2
        rw [alookup_setKey_ne _ _ (hrest_ne q hq)]
        exact hlrest q hq
      · intro title d h hnot
        by_cases heq : title = t0
        · have hsd : alookup (setKey t0 ⟨d0.tasks, Rem.none⟩ s.lists) title = some d := h
          rw [heq, alookup_setKey_self] at hsd
          injection hsd with hsd
          rw [← hsd, heq]
          exact agreesAt_of_none rfl hj0
        · have h' : alookup s.lists title = some d := by
            have h2 : alookup (setKey t0 ⟨d0.tasks, Rem.none⟩ s.lists) title
                = some d := h
            rw [alookup_setKey_ne _ _ heq] at h2
            exact h2
          exact agreesAt_congr rfl (hagree title d h' (hnotcons title heq hnot))
      · intro id job hj2
        have hj2' : alookup s.jobs id = some job := hj2
        obtain ⟨hid, d', hd', hrem'⟩ := hback id job hj2'
        by_cases hjt : job.title = t0
        · exfalso
          rw [hid, hjt, hj0] at hj2'
          exact Option.noConfusion hj2'
        · refine ⟨hid, d', ?_, hrem'⟩
          show alookup (setKey t0 ⟨d0.tasks, Rem.none⟩ s.lists) job.title = some d'
          rw [alookup_setKey_ne _ _ hjt]
          exact hd'

theorem inv_of_equiv {L : Store} {J J' : JobMap} (hinv : Inv ⟨L, J⟩)
    (hjq : ∀ id, alookup J' id = alookup J id) (hnd : keysNodup J') : Inv ⟨L, J'⟩ := by
  obtain ⟨hids, _, hagree, hback⟩ := hinv
  refine ⟨hids, hnd, ?_, ?_⟩
  · intro title d h
    exact agreesAt_congr (hjq (jobIdFor title)) (hagree title d h)
  · intro id job hj
    rw [show alookup (AppState.mk L J').jobs id = alookup J' id from rfl, hjq id] at hj
    exact hback id job hj

theorem inv_set_time (s : AppState) (title : String) (ts : List String) (f : Int)
    (hinv : Inv s) (hmem : title ∈ keysOf s.lists) :
    Inv ⟨setKey title ⟨ts, Rem.time f⟩ s.lists,
      setKey (jobIdFor title) ⟨f, title⟩ (popKey (jobIdFor title) s.jobs)⟩ := by
  obtain ⟨hids, hndj, hagree, hback⟩ := hinv
  refine ⟨?_, ?_, ?_, ?_⟩
  · show ((keysOf (setKey title ⟨ts, Rem.time f⟩ s.lists)).map jobIdFor).Nodup
    rw [keys_setKey_of_mem _ s.lists hmem]
    exact hids
  · exact keysNodup_setKey _ _ (keysNodup_popKey _ hndj)
  · intro title' d' h'
    by_cases heq : title' = title
    · have hsd : alookup (setKey title ⟨ts, Rem.time f⟩ s.lists) title' = some d' := h'
      rw [heq, alookup_setKey_self] at hsd
      injection hsd with hsd
      rw [← hsd, heq]
      refine agreesAt_of_time rfl ?_
      exact alookup_setKey_self _ _ _
    · have hsd : alookup s.lists title' = some d' := by
        have h2 : alookup (setKey title ⟨ts, Rem.time f⟩ s.lists) title' = some d' := h'
        rw [alookup_setKey_ne _ _ heq] at h2
        exact h2
      have hidne : jobIdFor title' ≠ jobIdFor title :=
        jobIdFor_ne_of_ne hids (alookup_mem_keys hsd) hmem heq
      refine agreesAt_congr ?_ (hagree title' d' hsd)
      show alookup (setKey (jobIdFor title) ⟨f, title⟩ (popKey (jobIdFor title) s.jobs))
          (jobIdFor title') = alookup s.jobs (jobIdFor title')
      rw [alookup_setKey_ne _ _ hidne, alookup_popKey_ne _ hidne]
  · intro id job hj2
    have hj2' : alookup (setKey (jobIdFor title) ⟨f, title⟩
        (popKey (jobIdFor title) s.jobs)) id = some job := hj2
    by_cases hidq : id = jobIdFor title
    · rw [hidq, alookup_setKey_self] at hj2'
      injection hj2' with hj2'
      rw [← hj2']
      refine ⟨by rw [hidq], ⟨ts, Rem.time f⟩, ?_, rfl⟩
      exact alookup_setKey_self _ _ _
    · rw [alookup_setKey_ne _ _ hidq, alookup_popKey_ne _ hidq] at hj2'
      obtain ⟨hid, d'', hd'', hrem''⟩ := hback id job hj2'
      have hjt : job.title ≠ title := by
        intro hh
        rw [hh] at hid
        exact hidq hid
      refine ⟨hid, d'', ?_, hrem''⟩
      show alookup (setKey title ⟨ts, Rem.time f⟩ s.lists) job.title = some d''
      rw [alookup_setKey_ne _ _ hjt]
      exact hd''

theorem inv_clear (s : AppState) (title : String) (ts : List String)
    (hinv : Inv s) (hmem : title ∈ keysOf s.lists) :
    Inv ⟨setKey title ⟨ts, Rem.none⟩ s.lists, popKey (jobIdFor title) s.jobs⟩ := by
  obtain ⟨hids, hndj, hagree, hback⟩ := hinv
  refine ⟨?_, keysNodup_popKey _ hndj, ?_, ?_⟩
  · show ((keysOf (setKey title ⟨ts, Rem.none⟩ s.lists)).map jobIdFor).Nodup
    rw [keys_setKey_of_mem _ s.lists hmem]
    exact hids
  · intro title' d' h'
    by_cases heq : title' = title
    · have hsd : alookup (setKey title ⟨ts, Rem.none⟩ s.lists) title' = some d' := h'
      rw [heq, alookup_setKey_self] at hsd
      injection hsd with hsd
      rw [← hsd, heq]
      exact agreesAt_of_none rfl (alookup_popKey_self _ hndj)
    · have hsd : alookup s.lists title' = some d' := by
        have h2 : alookup (setKey title ⟨ts, Rem.none⟩ s.lists) title' = some d' := h'
        rw [alookup_setKey_ne _ _ heq] at h2
        exact h2
      have hidne : jobIdFor title' ≠ jobIdFor title :=
        jobIdFor_ne_of_ne hids (alookup_mem_keys hsd) hmem heq
      refine agreesAt_congr ?_ (hagree title' d' hsd)
      show alookup (popKey (jobIdFor title) s.jobs) (jobIdFor title')
          = alookup s.jobs (jobIdFor title')
      exact alookup_popKey_ne _ hidne
  · intro id job hj2
    have hj2' : alookup (popKey (jobIdFor title) s.jobs) id = some job := hj2
    by_cases hidq : id = jobIdFor title
    · rw [hidq, alookup_popKey_self _ hndj] at hj2'
      exact Option.noConfusion hj2'
    · rw [alookup_popKey_ne _ hidq] at hj2'
      obtain ⟨hid, d'', hd'', hrem''⟩ := hback id job hj2'
      have hjt : job.title ≠ title := by
        intro hh
        rw [hh] at hid
        exact hidq hid
      refine ⟨hid, d'', ?_, hrem''⟩
      show alookup (setKey title ⟨ts, Rem.none⟩ s.lists) job.title = some d''
      rw [alookup_setKey_ne _ _ hjt]
      exact hd''

theorem inv_schedule (s : AppState) (title : String) (f now : Int) (hinv : Inv s) :
    Inv (scheduleReminderForCurrentList false s title f now).2 := by
  cases hmem : alookup s.lists title with
  | none =>
    have h1 : (scheduleReminderForCurrentList false s title f now).2 = s := by
      simp [scheduleReminderForCurrentList, hmem]
    rw [h1]
    exact hinv
  | some d =>
    by_cases hle : f ≤ now
    · have h1 : (scheduleReminderForCurrentList false s title f now).2 = s := by
        simp [scheduleReminderForCurrentList, hmem, hle]
      rw [h1]
      exact hinv
    · have h1 : (scheduleReminderForCurrentList false s title f now).2
          = ⟨setKey title ⟨d.tasks, Rem.time f⟩ s.lists,
             setKey (jobIdFor title) ⟨f, title⟩ (popKey (jobIdFor title) s.jobs)⟩ := by
        simp [scheduleReminderForCurrentList, hmem, hle, addNotificationJob]
      rw [h1]
      exact inv_set_time s title d.tasks f hinv (alookup_mem_keys hmem)

theorem inv_cancel (s : AppState) (title : String) (hinv : Inv s) :
    Inv (clearReminderForCurrentList s title).2 := by
  cases hmem : alookup s.lists title with
  | none =>
    have h1 : (clearReminderForCurrentList s title).2 = s := by
      simp [clearReminderForCurrentList, hmem]
    rw [h1]
    exact hinv
  | some d =>
    by_cases hr : d.reminder = Rem.none
    · have h1 : (clearReminderForCurrentList s title).2 = s := by
        simp [clearReminderForCurrentList, hmem, hr]
      rw [h1]
      exact hinv
    · have h1 : (clearReminderForCurrentList s title).2
          = ⟨setKey title ⟨d.tasks, Rem.none⟩ s.lists, popKey (jobIdFor title) s.jobs⟩ := by
        simp [clearReminderForCurrentList, hmem, hr]
      rw [h1]
      exact inv_clear s title d.tasks hinv (alookup_mem_keys hmem)

theorem inv_markDone (s : AppState) (title : String) (hinv : Inv s) :
    Inv (markListDone s title) := by
  cases hmem : alookup s.lists title with
  | none =>
    have h1 : markListDone s title = s := by
      simp [markListDone, hmem]
    rw [h1]
    exact hinv
  | some d =>
    have h1 : markListDone s title
        = ⟨setKey title ⟨d.tasks.map (fun t => "✔ " ++ t), Rem.none⟩ s.lists,
           popKey (jobIdFor title) s.jobs⟩ := by
      simp [markListDone, hmem]
    rw [h1]
    exact inv_clear s title _ hinv (alookup_mem_keys hmem)

theorem inv_delete (s : AppState) (title : String) (hinv : Inv s) :
    Inv (deleteSelectedList s title) := by
  obtain ⟨hids, hndj, hagree, hback⟩ := hinv
  have hndl : keysNodup s.lists := keysNodup_of_idsNodup hids
  cases hmem : alookup s.lists title with
  | none =>
    have h1 : deleteSelectedList s title = s := by
      simp [deleteSelectedList, hmem]
    rw [h1]
    exact ⟨hids, hndj, hagree, hback⟩
  | some d =>
    have hidsp : idsNodup (popKey title s.lists) := by
      show ((keysOf (popKey title s.lists)).map jobIdFor).Nodup
      exact List.Nodup.sublist (((popKey_sublist s.lists title).map Prod.fst).map jobIdFor) hids
    have hlagree : ∀ (title' : String) (d' : TaskData),
        alookup (popKey title s.lists) title' = some d' →
        alookup s.lists title' = some d' ∧ title' ≠ title := by
      intro title' d' h'
      by_cases heq : title' = title
      · rw [heq, alookup_popKey_self _ hndl] at h'
        exact Option.noConfusion h'
      · rw [alookup_popKey_ne _ heq] at h'
        exact ⟨h', heq⟩
    by_cases hr : d.reminder = Rem.none
    · have h1 : deleteSelectedList s title = ⟨popKey title s.lists, s.jobs⟩ := by
        simp [deleteSelectedList, hmem, hr]
      rw [h1]
      refine ⟨hidsp, hndj, ?_, ?_⟩
      · intro title' d' h'
        obtain ⟨hsd, hne⟩ := hlagree title' d' h'
        exact agreesAt_congr rfl (hagree title' d' hsd)
      · intro id job hj2
        obtain ⟨hid, d'', hd'', hrem''⟩ := hback id job hj2
        have hjt : job.title ≠ title := by
          intro hh
          rw [hh, hmem] at hd''
          injection hd'' with hd''
          rw [← hd'', hr] at hrem''
          exact Rem.noConfusion hrem''
        refine ⟨hid, d'', ?_, hrem''⟩
        show alookup (popKey title s.lists) job.title = some d''
        rw [alookup_popKey_ne _ hjt]
        exact hd''
    · have h1 : deleteSelectedList s title
          = ⟨popKey title s.lists, popKey (jobIdFor title) s.jobs⟩ := by
        simp [deleteSelectedList, hmem, hr]
      rw [h1]
      refine ⟨hidsp, keysNodup_popKey _ hndj, ?_, ?_⟩
      · intro title' d' h'
        obtain ⟨hsd, hne⟩ := hlagree title' d' h'
        have hidne : jobIdFor title' ≠ jobIdFor title :=
          jobIdFor_ne_of_ne hids (alookup_mem_keys hsd) (alookup_mem_keys hmem) hne
        refine agreesAt_congr ?_ (hagree title' d' hsd)
        show alookup (popKey (jobIdFor title) s.jobs) (jobIdFor title')
            = alookup s.jobs (jobIdFor title')
        exact alookup_popKey_ne _ hidne
      · intro id job hj2
        have hj2' : alookup (popKey (jobIdFor title) s.jobs) id = some job := hj2
        by_cases hidq : id = jobIdFor title
        · rw [hidq, alookup_popKey_self _ hndj] at hj2'
          exact Option.noConfusion hj2'
        · rw [alookup_popKey_ne _ hidq] at hj2'
          obtain ⟨hid, d'', hd'', hrem''⟩ := hback id job hj2'
          have hjt : job.title ≠ title := by
            intro hh
            rw [hh] at hid
            exact hidq hid
          refine ⟨hid, d'', ?_, hrem''⟩
          show alookup (popKey title s.lists) job.title = some d''
          rw [alookup_popKey_ne _ hjt]
          exact hd''

theorem inv_fireJob (s : AppState) (id : String) (sendRaises : Bool) (hinv : Inv s) :
    Inv (match fireJob sendRaises s id with
         | some r => r.state
         | Option.none => s) := by
  cases hjob : alookup s.jobs id with
  | none =>
    have h1 : fireJob sendRaises s id = Option.none := by
      simp [fireJob, hjob]
    rw [h1]
    exact hinv
  | some job =>
    obtain ⟨hid, d, hd', hrem'⟩ := hinv.2.2.2 id job hjob
    have h1 : fireJob sendRaises s id
        = some { state := ⟨setKey job.title ⟨d.tasks, Rem.none⟩ s.lists, popKey id s.jobs⟩,
                 sent := ⟨"Reminder — " ++ job.title, notifyMessage job.title d.tasks⟩,
                 saved := true } := by
      simp [fireJob, hjob, hd']
    rw [h1]
    show Inv ⟨setKey job.title ⟨d.tasks, Rem.none⟩ s.lists, popKey id s.jobs⟩
    rw [hid]
    exact inv_clear s job.title d.tasks hinv (alookup_mem_keys hd')

theorem rearm_preserves (now : Int) :
    ∀ (todo : List (String × TaskData)) (s : AppState),
      Inv s →
      (∀ p ∈ todo, alookup s.lists p.1 = some p.2) →
      (∀ p ∈ todo, ∀ t, p.2.reminder = Rem.time t → now < t) →
      Inv (rearmGo now todo s) := by
  intro todo
  induction todo with
  | nil =>
    intro s hinv _ _
    exact hinv
  | cons p rest ih =>
    obtain ⟨t0, d0⟩ := p
    intro s hinv hlk hfut
    have hl0 : alookup s.lists t0 = some d0 := hlk (t0, d0) (List.mem_cons_self _ _)
    have hlrest : ∀ q ∈ rest, alookup s.lists q.1 = some q.2 :=
      fun q hq => hlk q (List.mem_cons_of_mem _ hq)
    have hfrest : ∀ q ∈ rest, ∀ t, q.2.reminder = Rem.time t → now < t :=
      fun q hq => hfut q (List.mem_cons_of_mem _ hq)
    have hag0 := hinv.2.2.1 t0 d0 hl0
    cases hd : d0.reminder with
    | none =>
      have hstep : rearmGo now ((t0, d0) :: rest) s = rearmGo now rest s := by
        simp only [rearmGo, hd]
      rw [hstep]
      exact ih s hinv hlrest hfrest
    | time t =>
      have hf : now < t := hfut (t0, d0) (List.mem_cons_self _ _) t hd
      have hstep : rearmGo now ((t0, d0) :: rest) s
          = rearmGo now rest ⟨s.lists, addNotificationJob false s.jobs t0 t⟩ := by
        simp only [rearmGo, hd, hf, if_true]
      rw [hstep]
      have hjoblk : alookup s.jobs (jobIdFor t0) = some ⟨t, t0⟩ := hag0.2.1 t hd
      have hequiv : ∀ i, alookup (addNotificationJob false s.jobs t0 t) i
          = alookup s.jobs i := by
        intro i
        show alookup (setKey (jobIdFor t0) ⟨t, t0⟩ (popKey (jobIdFor t0) s.jobs)) i = _
        by_cases hq : i = jobIdFor t0
        · rw [hq, alookup_setKey_self, hjoblk]
        · rw [alookup_setKey_ne _ _ hq, alookup_popKey_ne _ hq]
      refine ih ⟨s.lists, addNotificationJob false s.jobs t0 t⟩ ?_ hlrest hfrest
      exact inv_of_equiv hinv hequiv
        (keysNodup_setKey _ _ (keysNodup_popKey _ hinv.2.1))
    | bad str =>
      exact absurd hd (hag0.2.2 str)

theorem inv_rename (s : AppState) (oldTitle newTitle : String) (hinv : Inv s)
    (hsc : ∀ k ∈ keysOf s.lists, k = oldTitle ∨ jobIdFor k ≠ jobIdFor newTitle) :
    Inv (renameCurrentList false s oldTitle newTitle).2 := by
  obtain ⟨hids, hndj, hagree, hback⟩ := hinv
  have hndl : keysNodup s.lists := keysNodup_of_idsNodup hids
  cases hold : alookup s.lists oldTitle with
  | none =>
    have he : (renameCurrentList false s oldTitle newTitle).2 = s := by
      simp [renameCurrentList, hold]
    rw [he]
    exact ⟨hids, hndj, hagree, hback⟩
  | some d =>
    by_cases h1 : newTitle = ""
    · have he : (renameCurrentList false s oldTitle newTitle).2 = s := by
        simp [renameCurrentList, hold, h1]
      rw [he]
      exact ⟨hids, hndj, hagree, hback⟩
    by_cases h2 : newTitle = oldTitle
    · have he : (renameCurrentList false s oldTitle newTitle).2 = s := by
        simp [renameCurrentList, hold, h1, h2]
        split <;> rfl
      rw [he]
      exact ⟨hids, hndj, hagree, hback⟩
    cases hfresh : alookup s.lists newTitle with
    | some d2 =>
      have he : (renameCurrentList false s oldTitle newTitle).2 = s := by
        simp [renameCurrentList, hold, h1, h2, hfresh]
      rw [he]
      exact ⟨hids, hndj, hagree, hback⟩
    | none =>
      have holdmem : oldTitle ∈ keysOf s.lists := alookup_mem_keys hold
      have hnewnot : newTitle ∉ keysOf s.lists := (alookup_eq_none_iff _ _).mp hfresh
      have hne_on : oldTitle ≠ newTitle := fun hh => h2 hh.symm
      have hnewnotp : newTitle ∉ keysOf (popKey oldTitle s.lists) :=
        fun hm => hnewnot (((popKey_sublist s.lists oldTitle).map Prod.fst).mem hm)
      have hLkeys : keysOf (setKey newTitle d (popKey oldTitle s.lists))
          = keysOf (popKey oldTitle s.lists) ++ [newTitle] :=
        keys_setKey_of_not_mem d _ hnewnotp
      have hidsp' : idsNodup (setKey newTitle d (popKey oldTitle s.lists)) := by
        show ((keysOf (setKey newTitle d (popKey oldTitle s.lists))).map jobIdFor).Nodup
        rw [hLkeys, List.map_append, List.nodup_append]
        refine ⟨List.Nodup.sublist
            (((popKey_sublist s.lists oldTitle).map Prod.fst).map jobIdFor) hids,
          by simp, ?_⟩
        intro a ha hb
        rw [show (List.map jobIdFor [newTitle]) = [jobIdFor newTitle] from rfl,
          List.mem_singleton] at hb
        obtain ⟨k, hk, hka⟩ := List.mem_map.mp ha
        obtain ⟨hkmem, hkne⟩ := mem_keys_popKey hndl hk
        rcases hsc k hkmem with hko | hkid
        · exact hkne hko
        · rw [hka] at hkid
          exact hkid hb
      have hLnew : alookup (setKey newTitle d (popKey oldTitle s.lists)) newTitle
          = some d := alookup_setKey_self _ _ _
      have hLold : alookup (setKey newTitle d (popKey oldTitle s.lists)) oldTitle
          = Option.none := by
        rw [alookup_setKey_ne _ _ hne_on]
        exact alookup_popKey_self _ hndl
      have hLother : ∀ title' : String, title' ≠ oldTitle → title' ≠ newTitle →
          alookup (setKey newTitle d (popKey oldTitle s.lists)) title'
            = alookup s.lists title' := by
        intro title' ho hn
        rw [alookup_setKey_ne _ _ hn, alookup_popKey_ne _ ho]
      have hagd := hagree oldTitle d hold
      cases hrd : d.reminder with
      | bad str => exact absurd hrd (hagd.2.2 str)
      | none =>
        have hstate : (renameCurrentList false s oldTitle newTitle).2
            = ⟨setKey newTitle d (popKey oldTitle s.lists), s.jobs⟩ := by
          simp [renameCurrentList, hold, h1, h2, hfresh, hrd]
        rw [hstate]
        have hjnone : alookup s.jobs (jobIdFor newTitle) = Option.none := by
          cases hjn : alookup s.jobs (jobIdFor newTitle) with
          | none => rfl
          | some job =>
            exfalso
            obtain ⟨hid, d'', hd'', hrem''⟩ := hback _ job hjn
            rcases hsc job.title (alookup_mem_keys hd'') with hko | hkid
            · rw [hko, hold] at hd''
              injection hd'' with hd''
              rw [← hd'', hrd] at hrem''
              exact Rem.noConfusion hrem''
            · exact hkid hid.symm
        refine ⟨hidsp', hndj, ?_, ?_⟩
        · intro title' d' h'
          by_cases heqn : title' = newTitle
          · have hsd : alookup (setKey newTitle d (popKey oldTitle s.lists)) title'
                = some d' := h'
            rw [heqn, hLnew] at hsd
            injection hsd with hsd
            rw [← hsd, heqn]
            exact agreesAt_of_none hrd hjnone
          · by_cases heqo : title' = oldTitle
            · exfalso
              have hsd : alookup (setKey newTitle d (popKey oldTitle s.lists)) title'
                  = some d' := h'
              rw [heqo, hLold] at hsd
              exact Option.noConfusion hsd
            · have hsd : alookup s.lists title' = some d' := by
                have hx : alookup (setKey newTitle d (popKey oldTitle s.lists)) title'
                    = some d' := h'
                rw [hLother title' heqo heqn] at hx
                exact hx
              exact agreesAt_congr rfl (hagree title' d' hsd)
        · intro id job hj2
          have hj2' : alookup s.jobs id = some job := hj2
          obtain ⟨hid, d'', hd'', hrem''⟩ := hback id job hj2'
          have hjto : job.title ≠ oldTitle := by
            intro hh
            rw [hh, hold] at hd''
            injection hd'' with hd''
            rw [← hd'', hrd] at hrem''
            exact Rem.noConfusion hrem''
          have hjtn : job.title ≠ newTitle := by
            intro hh
            rw [hh] at hd''
            exact hnewnot (alookup_mem_keys hd'')
          refine ⟨hid, d'', ?_, hrem''⟩
          show alookup (setKey newTitle d (popKey oldTitle s.lists)) job.title = some d''
          rw [hLother job.title hjto hjtn]
          exact hd''
      | time f =>
        have hjoblk : alookup s.jobs (jobIdFor oldTitle) = some ⟨f, oldTitle⟩ :=
          hagd.2.1 f hrd
        have hstate : (renameCurrentList false s oldTitle newTitle).2
            = ⟨setKey newTitle d (popKey oldTitle s.lists),
               setKey (jobIdFor newTitle) ⟨f, newTitle⟩ (popKey (jobIdFor newTitle)
                 (popKey (jobIdFor oldTitle) s.jobs))⟩ := by
          simp [renameCurrentList, hold, h1, h2, hfresh, hrd, hjoblk, addNotificationJob]
        rw [hstate]
        refine ⟨hidsp', keysNodup_setKey _ _ (keysNodup_popKey _ (keysNodup_popKey _ hndj)),
          ?_, ?_⟩
        · intro title' d' h'
          by_cases heqn : title' = newTitle
          · have hsd : alookup (setKey newTitle d (popKey oldTitle s.lists)) title'
                = some d' := h'
            rw [heqn, hLnew] at hsd
            injection hsd with hsd
            rw [← hsd, heqn]
            refine agreesAt_of_time hrd ?_
            exact alookup_setKey_self _ _ _
          · by_cases heqo : title' = oldTitle
            · exfalso
              have hsd : alookup (setKey newTitle d (popKey oldTitle s.lists)) title'
                  = some d' := h'
              rw [heqo, hLold] at hsd
              exact Option.noConfusion hsd
            · have hsd : alookup s.lists title' = some d' := by
                have hx : alookup (setKey newTitle d (popKey oldTitle s.lists)) title'
                    = some d' := h'
                rw [hLother title' heqo heqn] at hx
                exact hx
              have hmem' : title' ∈ keysOf s.lists := alookup_mem_keys hsd
              have hidne_n : jobIdFor title' ≠ jobIdFor newTitle := by
                rcases hsc title' hmem' with hko | hkid
                · exact absurd hko heqo
                · exact hkid
              have hidne_o : jobIdFor title' ≠ jobIdFor oldTitle :=
                jobIdFor_ne_of_ne hids hmem' holdmem heqo
              refine agreesAt_congr ?_ (hagree title' d' hsd)
              show alookup (setKey (jobIdFor newTitle) ⟨f, newTitle⟩
                  (popKey (jobIdFor newTitle) (popKey (jobIdFor oldTitle) s.jobs)))
                  (jobIdFor title') = alookup s.jobs (jobIdFor title')
              rw [alookup_setKey_ne _ _ hidne_n, alookup_popKey_ne _ hidne_n,
                alookup_popKey_ne _ hidne_o]
        · intro id job hj2
          have hj2' : alookup (setKey (jobIdFor newTitle) ⟨f, newTitle⟩
              (popKey (jobIdFor newTitle) (popKey (jobIdFor oldTitle) s.jobs))) id
              = some job := hj2
          by_cases hidq_n : id = jobIdFor newTitle
          · rw [hidq_n, alookup_setKey_self] at hj2'
            injection hj2' with hj2'
            rw [← hj2']
            exact ⟨by rw [hidq_n], d, hLnew, hrd⟩
          · rw [alookup_setKey_ne _ _ hidq_n, alookup_popKey_ne _ hidq_n] at hj2'
            by_cases hidq_o : id = jobIdFor oldTitle
            · rw [hidq_o, alookup_popKey_self _ hndj] at hj2'
              exact Option.noConfusion hj2'
            · rw [alookup_popKey_ne _ hidq_o] at hj2'
              obtain ⟨hid, d'', hd'', hrem''⟩ := hback id job hj2'
              have hjto : job.title ≠ oldTitle := by
                intro hh
                rw [hh] at hid
                exact hidq_o hid
              have hjtn : job.title ≠ newTitle := by
                intro hh
                rw [hh] at hd''
                exact hnewnot (alookup_mem_keys hd'')
              refine ⟨hid, d'', ?_, hrem''⟩
              show alookup (setKey newTitle d (popKey oldTitle s.lists)) job.title
                  = some d''
              rw [hLother job.title hjto hjtn]
              exact hd''

theorem inv_after_rearm (ls : Store) (now : Int) (hids : idsNodup ls) :
    Inv (scheduleExistingReminders now ⟨ls, []⟩) := by
  show Inv (rearmGo now ls ⟨ls, []⟩)
  refine rearm_establishes now ls ⟨ls, []⟩ hids List.nodup_nil hids
    (fun p hp => mem_alookup ls (keysNodup_of_idsNodup hids) hp)
    (fun p _ => rfl) ?_ ?_
  · intro title d h hnot
    exact absurd (alookup_mem_keys h) hnot
  · intro id job h
    exact Option.noConfusion h

theorem notifyMessage_nil (t : String) :
    notifyMessage t [] = "You scheduled a reminder for '" ++ t ++ "'.\nTasks:\n" := by
  show ("You scheduled a reminder for '" ++ t ++ "'.\nTasks:\n")
      ++ String.intercalate "\n" ((([] : List String).take 10).map (fun x => "- " ++ x)) = _
  rw [show String.intercalate "\n" ((([] : List String).take 10).map (fun x => "- " ++ x))
      = "" from rfl]
  exact String.append_empty _

/-- Claim C3, counterexample: the job-id function does not map every
whitespace character to an underscore.  A tab is whitespace, yet
`_job_id_for` only substitutes the space character, so a title containing a
tab keeps it verbatim instead of the underscore the claim requires. -/
theorem jobIdFor_whitespace_counterexample :
    Char.isWhitespace '\t' = true ∧
    jobIdFor "a\tb" = "reminder__a\tb" ∧
    "reminder__a\tb" ≠ "reminder__a_b" := by
  refine ⟨by decide, by decide, by decide⟩

/-- Claim C3 (amended): the job-id function is a pure total function of the
title that maps every space character (and only the space character, not
other whitespace) to an underscore, leaves every other character in place,
and returns the string "reminder__" followed by that normalization. -/
theorem jobIdFor_spec (title : String) (i : Nat) :
    jobIdFor title = "reminder__" ++ normalizeTitle title ∧
    (normalizeTitle title).data.length = title.data.length ∧
    (normalizeTitle title).data[i]? =
      (title.data[i]?).map (fun c => if c = ' ' then '_' else c) ∧
    ' ' ∉ (normalizeTitle title).data := by
  refine ⟨rfl, ?_, ?_, ?_⟩
  · show (title.data.map (fun c => if c = ' ' then '_' else c)).length = title.data.length
    exact List.length_map title.data _
  · show (title.data.map (fun c => if c = ' ' then '_' else c))[i]? = _
    exact List.getElem?_map _ title.data i
  · intro hmem
    have hmem2 : ' ' ∈ title.data.map (fun c => if c = ' ' then '_' else c) := hmem
    rcases List.mem_map.mp hmem2 with ⟨c, _, hc⟩
    by_cases hsp : c = ' '
    · rw [if_pos hsp] at hc
      exact absurd hc (by decide)
    · rw [if_neg hsp] at hc
      exact hsp hc

/-- Claim C5: when a job fires for a title still present in the store, the
stored reminder of that list is cleared to the empty string and the store
is persisted (`_save_data` is invoked), regardless of whether the
notification send raises: the state reached is the same as in the
non-raising run. -/
theorem fire_clears_and_saves (s : AppState) (id : String) (job : Job)
    (d : TaskData) (sendRaises : Bool)
    (hjob : alookup s.jobs id = some job)
    (hlist : alookup s.lists job.title = some d) :
    (fireJob sendRaises s id).map
        (fun r => ((alookup r.state.lists job.title).map TaskData.reminder, r.saved))
      = some (some Rem.none, true) ∧
    fireJob sendRaises s id = fireJob false s id := by
  constructor
  · simp [fireJob, hjob, hlist, alookup_setKey_self]
  · rfl

theorem fire_clears_and_saves_witness :
    ((fireJob true ⟨[("Errands", ⟨["Buy milk"], Rem.time 7⟩)],
          [("reminder__Errands", ⟨7, "Errands"⟩)]⟩ "reminder__Errands").map
        (fun r => ((alookup r.state.lists "Errands").map TaskData.reminder, r.saved))
      = some (some Rem.none, true)) ∧
    fireJob true ⟨[("Errands", ⟨["Buy milk"], Rem.time 7⟩)],
        [("reminder__Errands", ⟨7, "Errands"⟩)]⟩ "reminder__Errands"
      = fireJob false ⟨[("Errands", ⟨["Buy milk"], Rem.time 7⟩)],
        [("reminder__Errands", ⟨7, "Errands"⟩)]⟩ "reminder__Errands" :=
  fire_clears_and_saves ⟨[("Errands", ⟨["Buy milk"], Rem.time 7⟩)],
    [("reminder__Errands", ⟨7, "Errands"⟩)]⟩ "reminder__Errands"
    ⟨7, "Errands"⟩ ⟨["Buy milk"], Rem.time 7⟩ true (by decide) (by decide)

/-- Claim C8: the notification built at fire time has exactly the title
"Reminder — " followed by the list title, and a body made of the fixed
intro sentence followed by the first at-most-10 tasks read at fire time,
each prefixed with the bullet marker "- ". -/
theorem fire_payload_spec (s : AppState) (id : String) (job : Job) (d : TaskData)
    (sendRaises : Bool)
    (hjob : alookup s.jobs id = some job)
    (hlist : alookup s.lists job.title = some d) :
    (fireJob sendRaises s id).map FireResult.sent =
      some ⟨"Reminder — " ++ job.title,
        "You scheduled a reminder for '" ++ job.title ++ "'.\nTasks:\n"
          ++ String.intercalate "\n" ((d.tasks.take 10).map (fun t => "- " ++ t))⟩ ∧
    (d.tasks.take 10).length ≤ 10 := by
  constructor
  · simp [fireJob, hjob, hlist, notifyMessage]
  · simpa using List.length_take_le 10 d.tasks

theorem fire_payload_spec_witness :
    ((fireJob false ⟨[("L", ⟨["a", "b"], Rem.time 3⟩)], [("reminder__L", ⟨3, "L"⟩)]⟩
        "reminder__L").map FireResult.sent =
      some ⟨"Reminder — " ++ "L",
        "You scheduled a reminder for '" ++ "L" ++ "'.\nTasks:\n"
          ++ String.intercalate "\n" ((["a", "b"].take 10).map (fun t => "- " ++ t))⟩) ∧
    ((["a", "b"] : List String).take 10).length ≤ 10 :=
  fire_payload_spec ⟨[("L", ⟨["a", "b"], Rem.time 3⟩)], [("reminder__L", ⟨3, "L"⟩)]⟩
    "reminder__L" ⟨3, "L"⟩ ⟨["a", "b"], Rem.time 3⟩ false (by decide) (by decide)

/-- Claim C9: deleting a list removes its scheduler job only when the
stored reminder string is non-empty; with an empty reminder the list is
removed from the store while an existing job under its id is left pending
(the whole job table is untouched). -/
theorem delete_with_empty_reminder_leaves_job (s : AppState) (t : String)
    (d : TaskData) (job : Job)
    (hlist : alookup s.lists t = some d) (hrem : d.reminder = Rem.none)
    (hjob : alookup s.jobs (jobIdFor t) = some job)
    (hnd : keysNodup s.lists) :
    alookup (deleteSelectedList s t).lists t = Option.none ∧
    (deleteSelectedList s t).jobs = s.jobs ∧
    alookup (deleteSelectedList s t).jobs (jobIdFor t) = some job := by
  have h1 : deleteSelectedList s t = ⟨popKey t s.lists, s.jobs⟩ := by
    simp [deleteSelectedList, hlist, hrem]
  rw [h1]
  exact ⟨alookup_popKey_self t hnd, rfl, hjob⟩

theorem delete_with_empty_reminder_leaves_job_witness :
    alookup (deleteSelectedList ⟨[("G", ⟨[], Rem.none⟩)], [("reminder__G", ⟨5, "G"⟩)]⟩
        "G").lists "G" = Option.none ∧
    (deleteSelectedList ⟨[("G", ⟨[], Rem.none⟩)], [("reminder__G", ⟨5, "G"⟩)]⟩ "G").jobs
      = [("reminder__G", ⟨5, "G"⟩)] ∧
    alookup (deleteSelectedList ⟨[("G", ⟨[], Rem.none⟩)], [("reminder__G", ⟨5, "G"⟩)]⟩
        "G").jobs (jobIdFor "G") = some ⟨5, "G"⟩ :=
  delete_with_empty_reminder_leaves_job ⟨[("G", ⟨[], Rem.none⟩)],
    [("reminder__G", ⟨5, "G"⟩)]⟩ "G" ⟨[], Rem.none⟩ ⟨5, "G"⟩
    (by decide) (by decide) (by decide) (by decide)

/-- Claim C10: when a job fires whose captured title is no longer a key of
the store, the notification is still produced (with an empty task preview),
the store mapping is not mutated and no save happens; only the fired job
leaves the job table. -/
theorem fire_for_missing_list (s : AppState) (id : String) (job : Job)
    (sendRaises : Bool)
    (hjob : alookup s.jobs id = some job)
    (hmiss : alookup s.lists job.title = Option.none) :
    fireJob sendRaises s id =
      some { state := ⟨s.lists, popKey id s.jobs⟩,
             sent := ⟨"Reminder — " ++ job.title,
               "You scheduled a reminder for '" ++ job.title ++ "'.\nTasks:\n"⟩,
             saved := false } := by
  simp [fireJob, hjob, hmiss, notifyMessage_nil]

theorem fire_for_missing_list_witness :
    fireJob false ⟨[], [("reminder__Gone", ⟨9, "Gone"⟩)]⟩ "reminder__Gone" =
      some { state := ⟨[], popKey "reminder__Gone" [("reminder__Gone", ⟨9, "Gone"⟩)]⟩,
             sent := ⟨"Reminder — " ++ "Gone",
               "You scheduled a reminder for '" ++ "Gone" ++ "'.\nTasks:\n"⟩,
             saved := false } :=
  fire_for_missing_list ⟨[], [("reminder__Gone", ⟨9, "Gone"⟩)]⟩ "reminder__Gone"
    ⟨9, "Gone"⟩ false (by decide) (by decide)

/-- Claim C2, counterexample: with the underlying registration failing (and
the retry failing too), the schedule operation still ends in the
"Scheduled" success report, and the stored reminder field has been changed
to the new timestamp before the scheduler call — the claim's "reports
failure" and "left unchanged" are both false on the code, which assigns
`self.lists[title]["reminder"]` on line 408 before calling the scheduler on
line 410 and swallows the failure. -/
theorem schedule_failure_counterexample :
    (scheduleReminderForCurrentList true ⟨[("A", ⟨[], Rem.none⟩)], []⟩ "A" 10 0).1
      = ScheduleOutcome.scheduled ∧
    (alookup (scheduleReminderForCurrentList true ⟨[("A", ⟨[], Rem.none⟩)], []⟩
        "A" 10 0).2.lists "A").map TaskData.reminder = some (Rem.time 10) ∧
    Rem.time 10 ≠ Rem.none ∧
    alookup (scheduleReminderForCurrentList true ⟨[("A", ⟨[], Rem.none⟩)], []⟩
        "A" 10 0).2.jobs (jobIdFor "A") = Option.none := by
  decide

/-- Claim C2 (amended): if registering the scheduler job fails (including
after the remove-then-recreate retry), the failure is swallowed and the
operation still reports success, while the list's reminder field — set
before the scheduler call — is left holding the new timestamp even though
no job exists for the title's id. -/
theorem schedule_failure_sets_reminder (s : AppState) (t : String) (d : TaskData)
    (f now : Int) (hmem : alookup s.lists t = some d) (hfut : now < f)
    (hnd : keysNodup s.jobs) :
    (scheduleReminderForCurrentList true s t f now).1 = ScheduleOutcome.scheduled ∧
    alookup (scheduleReminderForCurrentList true s t f now).2.lists t
      = some ⟨d.tasks, Rem.time f⟩ ∧
    alookup (scheduleReminderForCurrentList true s t f now).2.jobs (jobIdFor t)
      = Option.none := by
  have hle : ¬(f ≤ now) := not_le.mpr hfut
  refine ⟨?_, ?_, ?_⟩ <;>
    simp [scheduleReminderForCurrentList, hmem, hle, addNotificationJob,
      alookup_setKey_self, alookup_popKey_self, hnd]

theorem schedule_failure_sets_reminder_witness :
    (scheduleReminderForCurrentList true ⟨[("B", ⟨["x"], Rem.none⟩)], []⟩ "B" 10 0).1
      = ScheduleOutcome.scheduled ∧
    alookup (scheduleReminderForCurrentList true ⟨[("B", ⟨["x"], Rem.none⟩)], []⟩
        "B" 10 0).2.lists "B" = some ⟨["x"], Rem.time 10⟩ ∧
    alookup (scheduleReminderForCurrentList true ⟨[("B", ⟨["x"], Rem.none⟩)], []⟩
        "B" 10 0).2.jobs (jobIdFor "B") = Option.none :=
  schedule_failure_sets_reminder ⟨[("B", ⟨["x"], Rem.none⟩)], []⟩ "B"
    ⟨["x"], Rem.none⟩ 10 0 (by decide) (by decide) (by decide)

/-- Claim C4: scheduling twice for the same title leaves exactly one job
under the title's id, and that job fires at the second timestamp, never at
the first — `_add_notification_job` removes any existing job for the id
before registering the new one. -/
theorem schedule_twice_replaces (s : AppState) (t : String) (d : TaskData)
    (f1 f2 now1 now2 : Int) (hmem : alookup s.lists t = some d)
    (h1 : now1 < f1) (h2 : now2 < f2) (hnd : keysNodup s.jobs) :
    alookup (scheduleReminderForCurrentList false
        (scheduleReminderForCurrentList false s t f1 now1).2 t f2 now2).2.jobs
        (jobIdFor t) = some ⟨f2, t⟩ ∧
    keyCount (scheduleReminderForCurrentList false
        (scheduleReminderForCurrentList false s t f1 now1).2 t f2 now2).2.jobs
        (jobIdFor t) = 1 := by
  have hle1 : ¬(f1 ≤ now1) := not_le.mpr h1
  have hle2 : ¬(f2 ≤ now2) := not_le.mpr h2
  have hs1 : (scheduleReminderForCurrentList false s t f1 now1).2
      = ⟨setKey t ⟨d.tasks, Rem.time f1⟩ s.lists,
         setKey (jobIdFor t) ⟨f1, t⟩ (popKey (jobIdFor t) s.jobs)⟩ := by
    simp [scheduleReminderForCurrentList, hmem, hle1, addNotificationJob]
  have hmem1 : alookup (setKey t ⟨d.tasks, Rem.time f1⟩ s.lists) t
      = some ⟨d.tasks, Rem.time f1⟩ := alookup_setKey_self s.lists t _
  have hnd1 : keysNodup (setKey (jobIdFor t) ⟨f1, t⟩ (popKey (jobIdFor t) s.jobs)) :=
    keysNodup_setKey _ _ (keysNodup_popKey _ hnd)
  rw [hs1]
  have hs2 : (scheduleReminderForCurrentList false
        ⟨setKey t ⟨d.tasks, Rem.time f1⟩ s.lists,
         setKey (jobIdFor t) ⟨f1, t⟩ (popKey (jobIdFor t) s.jobs)⟩ t f2 now2).2
      = ⟨setKey t ⟨d.tasks, Rem.time f2⟩ (setKey t ⟨d.tasks, Rem.time f1⟩ s.lists),
         setKey (jobIdFor t) ⟨f2, t⟩ (popKey (jobIdFor t)
           (setKey (jobIdFor t) ⟨f1, t⟩ (popKey (jobIdFor t) s.jobs)))⟩ := by
    simp [scheduleReminderForCurrentList, hmem1, hle2, addNotificationJob]
  rw [hs2]
  have hlook : alookup (setKey (jobIdFor t) ⟨f2, t⟩ (popKey (jobIdFor t)
      (setKey (jobIdFor t) ⟨f1, t⟩ (popKey (jobIdFor t) s.jobs)))) (jobIdFor t)
      = some ⟨f2, t⟩ := alookup_setKey_self _ _ _
  exact ⟨hlook, keyCount_eq_one _ (keysNodup_setKey _ _ (keysNodup_popKey _ hnd1)) hlook⟩

theorem schedule_twice_replaces_witness :
    alookup (scheduleReminderForCurrentList false
        (scheduleReminderForCurrentList false ⟨[("W", ⟨[], Rem.none⟩)], []⟩
          "W" 50 0).2 "W" 60 1).2.jobs (jobIdFor "W") = some ⟨60, "W"⟩ ∧
    keyCount (scheduleReminderForCurrentList false
        (scheduleReminderForCurrentList false ⟨[("W", ⟨[], Rem.none⟩)], []⟩
          "W" 50 0).2 "W" 60 1).2.jobs (jobIdFor "W") = 1 :=
  schedule_twice_replaces ⟨[("W", ⟨[], Rem.none⟩)], []⟩ "W" ⟨[], Rem.none⟩
    50 60 0 1 (by decide) (by decide) (by decide) (by decide)

/-- Claim C7, counterexample: renaming "a b" to "a_b" — two distinct titles
with the same normalized job id — re-registers the job under the same id,
so after a rename in which a job existed under the old title's id, a job
still exists under that very id, contradicting the claim's "no job exists
under job_id(old_title)". -/
theorem rename_idcollision_counterexample :
    (renameCurrentList false ⟨[("a b", ⟨[], Rem.time 100⟩)],
        [("reminder__a_b", ⟨100, "a b"⟩)]⟩ "a b" "a_b").1 = RenameOutcome.renamed ∧
    jobIdFor "a b" = "reminder__a_b" ∧
    alookup (renameCurrentList false ⟨[("a b", ⟨[], Rem.time 100⟩)],
        [("reminder__a_b", ⟨100, "a b"⟩)]⟩ "a b" "a_b").2.jobs (jobIdFor "a b")
      = some ⟨100, "a_b"⟩ ∧
    some (⟨100, "a_b"⟩ : Job) ≠ (Option.none : Option Job) := by
  decide

/-- Claim C7 (amended): for a valid rename in which the old and new titles
normalize to distinct job ids, the renamed list's task data — its stored
reminder timestamp value included — moves verbatim to the new title, and:
if no job existed under the old title's id, the whole job table is
unchanged (the rename is a no-op on the scheduler); if the stored reminder
holds a parseable timestamp and the pending job under the old id matches
it, after the rename no job exists under the old id and exactly one job
exists under the new id with the original fire time preserved. -/
theorem rename_moves_job (s : AppState) (oldTitle newTitle : String) (d : TaskData)
    (hold : alookup s.lists oldTitle = some d)
    (hnd : keysNodup s.jobs)
    (hne : newTitle ≠ "") (hneq : newTitle ≠ oldTitle)
    (hfresh : alookup s.lists newTitle = Option.none)
    (hid : jobIdFor oldTitle ≠ jobIdFor newTitle) :
    (renameCurrentList false s oldTitle newTitle).1 = RenameOutcome.renamed ∧
    alookup (renameCurrentList false s oldTitle newTitle).2.lists newTitle = some d ∧
    (alookup s.jobs (jobIdFor oldTitle) = Option.none →
      (renameCurrentList false s oldTitle newTitle).2.jobs = s.jobs) ∧
    (∀ f, d.reminder = Rem.time f →
      alookup s.jobs (jobIdFor oldTitle) = some ⟨f, oldTitle⟩ →
      alookup (renameCurrentList false s oldTitle newTitle).2.jobs (jobIdFor oldTitle)
        = Option.none ∧
      alookup (renameCurrentList false s oldTitle newTitle).2.jobs (jobIdFor newTitle)
        = some ⟨f, newTitle⟩ ∧
      keyCount (renameCurrentList false s oldTitle newTitle).2.jobs (jobIdFor newTitle)
        = 1) := by
  refine ⟨?_, ?_, ?_, ?_⟩
  · simp [renameCurrentList, hold, hne, hneq, hfresh]
  · have hrl : (renameCurrentList false s oldTitle newTitle).2.lists
        = setKey newTitle d (popKey oldTitle s.lists) := by
      simp [renameCurrentList, hold, hne, hneq, hfresh]
    rw [hrl]
    exact alookup_setKey_self _ _ _
  · intro hnojob
    by_cases hr0 : d.reminder = Rem.none
    · simp [renameCurrentList, hold, hne, hneq, hfresh, hr0]
    · simp [renameCurrentList, hold, hne, hneq, hfresh, hr0, hnojob]
  · intro f hrem hjob
    have hr : renameCurrentList false s oldTitle newTitle
        = (RenameOutcome.renamed,
           ⟨setKey newTitle d (popKey oldTitle s.lists),
            setKey (jobIdFor newTitle) ⟨f, newTitle⟩ (popKey (jobIdFor newTitle)
              (popKey (jobIdFor oldTitle) s.jobs))⟩) := by
      simp [renameCurrentList, hold, hne, hneq, hfresh, hrem, hjob, addNotificationJob]
    rw [hr]
    have hlook : alookup (setKey (jobIdFor newTitle) ⟨f, newTitle⟩
        (popKey (jobIdFor newTitle) (popKey (jobIdFor oldTitle) s.jobs)))
        (jobIdFor newTitle) = some ⟨f, newTitle⟩ := alookup_setKey_self _ _ _
    refine ⟨?_, hlook, ?_⟩
    · rw [alookup_setKey_ne _ _ hid, alookup_popKey_ne _ hid]
      exact alookup_popKey_self _ hnd
    · exact keyCount_eq_one _
        (keysNodup_setKey _ _ (keysNodup_popKey _ (keysNodup_popKey _ hnd))) hlook

theorem rename_moves_job_witness :
    (renameCurrentList false ⟨[("Groceries", ⟨[], Rem.time 100⟩)],
        [("reminder__Groceries", ⟨100, "Groceries"⟩)]⟩ "Groceries" "Shopping").1
      = RenameOutcome.renamed ∧
    alookup (renameCurrentList false ⟨[("Groceries", ⟨[], Rem.time 100⟩)],
        [("reminder__Groceries", ⟨100, "Groceries"⟩)]⟩ "Groceries" "Shopping").2.jobs
        (jobIdFor "Groceries") = Option.none ∧
    alookup (renameCurrentList false ⟨[("Groceries", ⟨[], Rem.time 100⟩)],
        [("reminder__Groceries", ⟨100, "Groceries"⟩)]⟩ "Groceries" "Shopping").2.jobs
        (jobIdFor "Shopping") = some ⟨100, "Shopping"⟩ ∧
    keyCount (renameCurrentList false ⟨[("Groceries", ⟨[], Rem.time 100⟩)],
        [("reminder__Groceries", ⟨100, "Groceries"⟩)]⟩ "Groceries" "Shopping").2.jobs
        (jobIdFor "Shopping") = 1 ∧
    alookup (renameCurrentList false ⟨[("Groceries", ⟨[], Rem.time 100⟩)],
        [("reminder__Groceries", ⟨100, "Groceries"⟩)]⟩ "Groceries" "Shopping").2.lists
        "Shopping" = some ⟨[], Rem.time 100⟩ ∧
    (renameCurrentList false ⟨[("Chores", ⟨[], Rem.none⟩)], []⟩
        "Chores" "Errands").2.jobs = [] := by
  have hA := rename_moves_job ⟨[("Groceries", ⟨[], Rem.time 100⟩)],
      [("reminder__Groceries", ⟨100, "Groceries"⟩)]⟩ "Groceries" "Shopping"
    ⟨[], Rem.time 100⟩ (by decide) (by decide) (by decide) (by decide)
    (by decide) (by decide)
  have hB := rename_moves_job ⟨[("Chores", ⟨[], Rem.none⟩)], []⟩ "Chores" "Errands"
    ⟨[], Rem.none⟩ (by decide) (by decide) (by decide) (by decide)
    (by decide) (by decide)
  obtain ⟨hj1, hj2, hj3⟩ := hA.2.2.2 100 rfl (by decide)
  exact ⟨hA.1, hj1, hj2, hj3, hA.2.1, hB.2.2.1 (by decide)⟩

/-- Claim C6, counterexample: two stored titles ("a b" and "a_b") normalize
to the same job id, and both carry strictly future reminders; after the
startup rearm pass the single job under that shared id fires at the second
list's time, so for the first list no job with its stored fire time exists,
contradicting "schedules exactly one job with that fire time". -/
theorem rearm_collision_counterexample :
    (0 : Int) < 100 ∧
    (alookup (scheduleExistingReminders 0
        ⟨[("a b", ⟨[], Rem.time 100⟩), ("a_b", ⟨[], Rem.time 200⟩)], []⟩).lists
        "a b").map TaskData.reminder = some (Rem.time 100) ∧
    (alookup (scheduleExistingReminders 0
        ⟨[("a b", ⟨[], Rem.time 100⟩), ("a_b", ⟨[], Rem.time 200⟩)], []⟩).jobs
        (jobIdFor "a b")).map Job.fireAt = some 200 ∧
    (200 : Int) ≠ 100 := by
  decide

/-- Claim C6 (amended): for every store snapshot whose titles normalize to
pairwise distinct job ids and current time now, the startup rearm pass
visits every list with a non-empty stored reminder and: if the timestamp
parses and is strictly in the future, schedules exactly one job with that
fire time and leaves the entry unchanged; if the timestamp is in the past
or equal to now, or unparseable, clears the stored reminder to empty and
schedules no job; lists with an empty reminder are untouched. -/
theorem rearm_spec (ls : Store) (now : Int) (hids : idsNodup ls)
    (title : String) (d : TaskData) (hmem : alookup ls title = some d) :
    (d.reminder = Rem.none →
      alookup (scheduleExistingReminders now ⟨ls, []⟩).lists title = some d ∧
      alookup (scheduleExistingReminders now ⟨ls, []⟩).jobs (jobIdFor title)
        = Option.none) ∧
    (∀ t, d.reminder = Rem.time t → now < t →
      alookup (scheduleExistingReminders now ⟨ls, []⟩).lists title = some d ∧
      alookup (scheduleExistingReminders now ⟨ls, []⟩).jobs (jobIdFor title)
        = some ⟨t, title⟩ ∧
      keyCount (scheduleExistingReminders now ⟨ls, []⟩).jobs (jobIdFor title) = 1) ∧
    (∀ t, d.reminder = Rem.time t → t ≤ now →
      alookup (scheduleExistingReminders now ⟨ls, []⟩).lists title
        = some ⟨d.tasks, Rem.none⟩ ∧
      alookup (scheduleExistingReminders now ⟨ls, []⟩).jobs (jobIdFor title)
        = Option.none) ∧
    (∀ str, d.reminder = Rem.bad str →
      alookup (scheduleExistingReminders now ⟨ls, []⟩).lists title
        = some ⟨d.tasks, Rem.none⟩ ∧
      alookup (scheduleExistingReminders now ⟨ls, []⟩).jobs (jobIdFor title)
        = Option.none) := by
  have hnd : keysNodup ls := keysNodup_of_idsNodup hids
  have hse : scheduleExistingReminders now ⟨ls, []⟩ = rearmGo now ls ⟨ls, []⟩ := rfl
  obtain ⟨hL, hJ⟩ := rearm_tracks now ls ⟨ls, []⟩ hids
    (fun p hp => mem_alookup ls hnd hp) (title, d) (alookup_mem hmem)
  have hnd2 : keysNodup (rearmGo now ls (⟨ls, []⟩ : AppState)).jobs :=
    rearmGo_keysNodup_jobs now ls ⟨ls, []⟩ List.nodup_nil
  refine ⟨?_, ?_, ?_, ?_⟩
  · intro hr
    simp only [hr] at hJ
    have hd : rearmData now d = d := by
      simp [rearmData, hr]
    rw [hse, ← hd]
    exact ⟨hL, hJ.trans rfl⟩
  · intro t hr hf
    simp only [hr] at hJ
    rw [if_pos hf] at hJ
    have hd : rearmData now d = d := by
      simp only [rearmData, hr]
      rw [if_pos hf]
    rw [hse, ← hd]
    exact ⟨hL, hJ, keyCount_eq_one _ hnd2 hJ⟩
  · intro t hr hle
    have hf : ¬(now < t) := not_lt.mpr hle
    simp only [hr] at hJ
    rw [if_neg hf] at hJ
    have hd : rearmData now d = ⟨d.tasks, Rem.none⟩ := by
      simp only [rearmData, hr]
      rw [if_neg hf]
    rw [hse, ← hd]
    exact ⟨hL, hJ.trans rfl⟩
  · intro str hr
    simp only [hr] at hJ
    have hd : rearmData now d = ⟨d.tasks, Rem.none⟩ := by
      simp [rearmData, hr]
    rw [hse, ← hd]
    exact ⟨hL, hJ.trans rfl⟩

theorem rearm_spec_witness :
    (alookup (scheduleExistingReminders 0
        ⟨[("P", ⟨[], Rem.time 3600⟩), ("Q", ⟨[], Rem.time (-1)⟩)], []⟩).jobs
        (jobIdFor "P") = some ⟨3600, "P"⟩ ∧
      keyCount (scheduleExistingReminders 0
        ⟨[("P", ⟨[], Rem.time 3600⟩), ("Q", ⟨[], Rem.time (-1)⟩)], []⟩).jobs
        (jobIdFor "P") = 1) ∧
    alookup (scheduleExistingReminders 0
        ⟨[("P", ⟨[], Rem.time 3600⟩), ("Q", ⟨[], Rem.time (-1)⟩)], []⟩).lists "Q"
      = some ⟨[], Rem.none⟩ ∧
    alookup (scheduleExistingReminders 0
        ⟨[("P", ⟨[], Rem.time 3600⟩), ("Q", ⟨[], Rem.time (-1)⟩)], []⟩).jobs
        (jobIdFor "Q") = Option.none := by
  have hP := rearm_spec [("P", ⟨[], Rem.time 3600⟩), ("Q", ⟨[], Rem.time (-1)⟩)] 0
    (by decide) "P" ⟨[], Rem.time 3600⟩ (by decide)
  have hQ := rearm_spec [("P", ⟨[], Rem.time 3600⟩), ("Q", ⟨[], Rem.time (-1)⟩)] 0
    (by decide) "Q" ⟨[], Rem.time (-1)⟩ (by decide)
  obtain ⟨_, hPj, hPc⟩ := hP.2.1 3600 rfl (by decide)
  obtain ⟨hQl, hQj⟩ := hQ.2.2.1 (-1) rfl (by decide)
  exact ⟨⟨hPj, hPc⟩, hQl, hQj⟩

theorem inv_applyOp (s : AppState) (op : Op) (hinv : Inv s) (hok : opOk s op = true) :
    Inv (applyOp s op) := by
  cases op with
  | schedule title runDt now => exact inv_schedule s title runDt now hinv
  | cancel title => exact inv_cancel s title hinv
  | rename oldTitle newTitle =>
    have hok' : s.lists.all
        (fun p => p.1 == oldTitle || jobIdFor p.1 != jobIdFor newTitle) = true := hok
    refine inv_rename s oldTitle newTitle hinv ?_
    intro k hk
    obtain ⟨p, hp, hpk⟩ := List.mem_map.mp hk
    have hb := List.all_eq_true.mp hok' p hp
    rw [Bool.or_eq_true] at hb
    rcases hb with hb | hb
    · left
      rw [← hpk]
      exact eq_of_beq hb
    · right
      rw [← hpk]
      exact bne_iff_ne.mp hb
  | delete title => exact inv_delete s title hinv
  | markDone title => exact inv_markDone s title hinv
  | rearm now =>
    have hok' : s.lists.all (fun p =>
        match p.2.reminder with
        | Rem.time t => decide (now < t)
        | _ => true) = true := hok
    show Inv (rearmGo now s.lists s)
    refine rearm_preserves now s.lists s hinv
      (fun p hp => mem_alookup s.lists (keysNodup_of_idsNodup hinv.1) hp) ?_
    intro p hp t ht
    have hb := List.all_eq_true.mp hok' p hp
    simp only [ht] at hb
    exact of_decide_eq_true hb
  | fire id sendRaises => exact inv_fireJob s id sendRaises hinv

theorem inv_applyOps : ∀ (ops : List Op) (s : AppState),
    Inv s → opsOk s ops = true → Inv (applyOps s ops) := by
  intro ops
  induction ops with
  | nil =>
    intro s h _
    exact h
  | cons op rest ih =>
    intro s hinv hok
    have hok' : (opOk s op && opsOk (applyOp s op) rest) = true := hok
    rw [Bool.and_eq_true] at hok'
    show Inv (applyOps (applyOp s op) rest)
    exact ih (applyOp s op) (inv_applyOp s op hinv hok'.1) hok'.2

/-- Claim C1, counterexample: starting from a freshly rearmed store holding
the two colliding titles "a b" and "a_b" (both without reminders),
scheduling first "a b" and then "a_b" leaves "a b" with a non-empty stored
reminder for instant 100 while the only job under job_id("a b") fires at
200 — stored reminder and job disagree with no fire in flight, refuting the
claimed invariant for arbitrary operation sequences. -/
theorem agreement_collision_counterexample :
    (alookup (applyOps ⟨[("a b", ⟨[], Rem.none⟩), ("a_b", ⟨[], Rem.none⟩)], []⟩
        [Op.rearm 0, Op.schedule "a b" 100 0, Op.schedule "a_b" 200 0]).lists
        "a b").map TaskData.reminder = some (Rem.time 100) ∧
    (alookup (applyOps ⟨[("a b", ⟨[], Rem.none⟩), ("a_b", ⟨[], Rem.none⟩)], []⟩
        [Op.rearm 0, Op.schedule "a b" 100 0, Op.schedule "a_b" 200 0]).jobs
        (jobIdFor "a b")).map Job.fireAt = some 200 ∧
    Rem.time 100 ≠ Rem.none ∧ (200 : Int) ≠ 100 := by
  decide

/-- Claim C1 (amended): for every run that starts by rearming a loaded
store whose titles have pairwise distinct normalized job ids, and in which
every rename keeps the normalized ids of the current titles pairwise
distinct, every rearm runs only while all stored reminders are strictly
future, and every underlying scheduler registration succeeds, after every
operation sequence at most one scheduler job exists per job id, and each
list's stored reminder agrees with the scheduler: an empty reminder means
no job under the list's id, a stored timestamp means exactly the job with
that fire time under that id (a firing clears both together, atomically in
this model), and no unparseable reminder is ever stored. -/
theorem invariant_after_ops (ls : Store) (now : Int) (ops : List Op)
    (hids : idsNodup ls)
    (hops : opsOk (scheduleExistingReminders now ⟨ls, []⟩) ops = true) :
    atMostOneJobPerId (applyOps (scheduleExistingReminders now ⟨ls, []⟩) ops) ∧
    ∀ title d,
      alookup (applyOps (scheduleExistingReminders now ⟨ls, []⟩) ops).lists title
        = some d →
      agreesAt (applyOps (scheduleExistingReminders now ⟨ls, []⟩) ops) title d := by
  have hinv := inv_applyOps ops _ (inv_after_rearm ls now hids) hops
  obtain ⟨_, hndj, hagree, _⟩ := hinv
  exact ⟨fun id => keyCount_le_one id _ hndj, hagree⟩

theorem invariant_after_ops_witness :
    keyCount (applyOps (scheduleExistingReminders 0 ⟨[("a", ⟨[], Rem.time 5⟩)], []⟩)
        [Op.schedule "a" 10 0, Op.fire (jobIdFor "a") false]).jobs (jobIdFor "a") ≤ 1 ∧
    alookup (applyOps (scheduleExistingReminders 0 ⟨[("a", ⟨[], Rem.time 5⟩)], []⟩)
        [Op.schedule "a" 10 0, Op.fire (jobIdFor "a") false]).jobs (jobIdFor "a")
      = Option.none := by
  have h := invariant_after_ops [("a", ⟨[], Rem.time 5⟩)] 0
    [Op.schedule "a" 10 0, Op.fire (jobIdFor "a") false] (by decide) (by decide)
  refine ⟨h.1 (jobIdFor "a"), ?_⟩
  have h2 := h.2 "a" ⟨[], Rem.none⟩ (by decide)
  exact h2.1 rfl

end TodoApp
